import Mathlib

/-!
# TCP relay (`main.go`): client handler, relay queue and upstream dispatcher

A shallow embedding of `main.go` and of the Go standard-library functions it
calls (`strings.Contains`, `strings.SplitN`, `strings.Split`,
`strings.TrimSpace`, `json.Marshal` on the two request structs).

* A Go `string` is an immutable byte sequence: `GoString = List Byte`.
* A Go `[]byte` that aliases a handler's read buffer is a `ByteSlice`
  (buffer address and length) that is resolved against a `Heap`.
* A function that returns the sentinel `-1` in Go returns `none` here.
* An index expression `a[i]` that would abort with an out-of-range error
  yields `none`.
* The dispatcher goroutine runs over a script of dial results and write
  outcomes; `main` ends it, with the process, when `Server.Start` returns.
-/

namespace Relay

/-- A byte, `0 ≤ b < 256`. -/
abbrev Byte := Nat

/-- A Go `string`: an immutable sequence of bytes. -/
abbrev GoString := List Byte

/-- The bytes of an ASCII literal of the source. -/
def ascii (s : String) : GoString := s.toList.map Char.toNat

/-! ## Package `unicode/utf8` -/

namespace utf8

def RuneError : Nat := 0xFFFD
def RuneSelf : Nat := 0x80
def UTFMax : Nat := 4

/-- The table `first`: information about the first byte of a UTF-8 sequence
(`as = 0xF0` ASCII, `xx = 0xF1` invalid, otherwise accept-range index in the
high nibble and size in the low nibble). -/
def first (b : Byte) : Nat :=
  if b < 0x80 then 0xF0
  else if b < 0xC2 then 0xF1
  else if b < 0xE0 then 0x02
  else if b = 0xE0 then 0x13
  else if b < 0xED then 0x03
  else if b = 0xED then 0x23
  else if b < 0xF0 then 0x03
  else if b = 0xF0 then 0x34
  else if b < 0xF4 then 0x04
  else if b = 0xF4 then 0x44
  else 0xF1

/-- The table `acceptRanges` (`lo`, `hi`); entries past the fifth are zero. -/
def acceptRanges (i : Nat) : Nat × Nat :=
  match i with
  | 0 => (0x80, 0xBF)
  | 1 => (0xA0, 0xBF)
  | 2 => (0x80, 0x9F)
  | 3 => (0x90, 0xBF)
  | 4 => (0x80, 0x8F)
  | _ => (0, 0)

/-- The function `utf8.DecodeRuneInString`: the first rune of `s` and its width in bytes. -/
def DecodeRuneInString (s : GoString) : Nat × Nat :=
  match s with
  | [] => (RuneError, 0)
  | s0 :: _ =>
    let x := first s0
    if x ≥ 0xF0 then
      (if x % 2 = 1 then RuneError else s0, 1)
    else
      let sz := x &&& 7
      let accept := acceptRanges (x >>> 4)
      if s.length < sz then (RuneError, 1)
      else
        let s1 := s.getD 1 0
        if s1 < accept.1 ∨ accept.2 < s1 then (RuneError, 1)
        else if sz ≤ 2 then (((s0 &&& 0x1F) <<< 6) ||| (s1 &&& 0x3F), 2)
        else
          let s2 := s.getD 2 0
          if s2 < 0x80 ∨ 0xBF < s2 then (RuneError, 1)
          else if sz ≤ 3 then
            (((s0 &&& 0x0F) <<< 12) ||| ((s1 &&& 0x3F) <<< 6) ||| (s2 &&& 0x3F), 3)
          else
            let s3 := s.getD 3 0
            if s3 < 0x80 ∨ 0xBF < s3 then (RuneError, 1)
            else
              (((s0 &&& 0x07) <<< 18) ||| ((s1 &&& 0x3F) <<< 12) |||
                ((s2 &&& 0x3F) <<< 6) ||| (s3 &&& 0x3F), 4)

/-- The function `utf8.RuneStart`: `b` is not a continuation byte. -/
def RuneStart (b : Byte) : Bool := b &&& 0xC0 != 0x80

/-- The backwards scan of `DecodeLastRuneInString`: from `start`, step down
while `start ≥ lim` and `s[start]` is a continuation byte. The result is
`start + 1` (so that the value `-1` of the source is `0`). -/
def scanBack (s : GoString) (lim : Nat) : Nat → Nat
  | 0 => 0
  | start + 1 =>
    if start < lim then start + 1
    else if RuneStart (s.getD start 0) then start + 1
    else scanBack s lim start

/-- The function `utf8.DecodeLastRuneInString`: the last rune of `s` and its width. -/
def DecodeLastRuneInString (s : GoString) : Nat × Nat :=
  let stop := s.length
  if stop = 0 then (RuneError, 0)
  else
    let start := stop - 1
    let r := s.getD start 0
    if r < RuneSelf then (r, 1)
    else
      let lim := stop - UTFMax
      -- `for start--; start >= lim; start--`, then `if start < 0 { start = 0 }`
      let start := scanBack s lim start - 1
      let (r, size) := DecodeRuneInString ((s.drop start).take (stop - start))
      if start + size ≠ stop then (RuneError, 1) else (r, size)

/-- The function `utf8.RuneCountInString`: the number of runes of `s`, an invalid byte
counting as one rune of width 1. `skip` bytes of a rune already counted are
still to be passed. -/
def runeCountFrom : Nat → GoString → Nat
  | _, [] => 0
  | skip + 1, _ :: t => runeCountFrom skip t
  | 0, c :: t => runeCountFrom ((DecodeRuneInString (c :: t)).2 - 1) t + 1

def RuneCountInString (s : GoString) : Nat := runeCountFrom 0 s

end utf8

/-! ## Package `unicode` -/

namespace unicode

/-- The function `unicode.IsSpace`: the Latin-1 switch, then the `White_Space` table. -/
def IsSpace (r : Nat) : Bool :=
  if r ≤ 0xFF then
    r = 0x09 ∨ r = 0x0A ∨ r = 0x0B ∨ r = 0x0C ∨ r = 0x0D ∨ r = 0x20 ∨ r = 0x85 ∨ r = 0xA0
  else
    r = 0x1680 ∨ (0x2000 ≤ r ∧ r ≤ 0x200A) ∨ r = 0x2028 ∨ r = 0x2029 ∨ r = 0x202F ∨
      r = 0x205F ∨ r = 0x3000

end unicode

/-! ## Package `strings` -/

namespace strings

/-- The function `strings.Index`: the index of the first instance of `substr` in `s`,
`none` (the source's `-1`) if `substr` is not present in `s`. -/
def Index : GoString → GoString → Option Nat
  | [], substr => if substr = [] then some 0 else none
  | c :: t, substr =>
    if substr.isPrefixOf (c :: t) then some 0
    else (Index t substr).map (· + 1)

/-- The function `strings.Contains`: `Index(s, substr) >= 0`. -/
def Contains (s substr : GoString) : Bool := (Index s substr).isSome

/-- The loop of `strings.Count` for a non-empty `substr`: non-overlapping
instances, counted from the left; `fuel` bounds the iterations. -/
def countLoop (substr : GoString) : Nat → GoString → Nat
  | 0, _ => 0
  | fuel + 1, s =>
    match Index s substr with
    | none => 0
    | some i => countLoop substr fuel (s.drop (i + substr.length)) + 1

/-- The function `strings.Count`: the number of non-overlapping instances of `substr` in
`s`; for an empty `substr`, one more than the number of runes. -/
def Count (s substr : GoString) : Nat :=
  if substr = [] then utf8.RuneCountInString s + 1
  else countLoop substr (s.length + 1) s

/-- The loop of `explode`: `k` leading UTF-8 sequences, then the rest. -/
def explodeLoop : Nat → GoString → List GoString
  | 0, s => [s]
  | k + 1, s =>
    let size := (utf8.DecodeRuneInString s).2
    s.take size :: explodeLoop k (s.drop size)

/-- The function `strings.explode`: `s` split into UTF-8 sequences, at most `n` of them
(`n < 0` for no limit). -/
def explode (s : GoString) (n : Int) : List GoString :=
  let l := utf8.RuneCountInString s
  let n := if n < 0 ∨ n > l then l else n.toNat
  if n > 0 then explodeLoop (n - 1) s else []

/-- The loop of `genSplit`: at most `k` cuts, then the rest of `s`. -/
def splitLoop (sep : GoString) (sepSave : Nat) : Nat → GoString → List GoString
  | 0, s => [s]
  | k + 1, s =>
    match Index s sep with
    | none => [s]
    | some m => s.take (m + sepSave) :: splitLoop sep sepSave k (s.drop (m + sep.length))

/-- The function `strings.genSplit`: `s` split after each instance of `sep`, including
`sepSave` bytes of `sep` in the pieces, into at most `n` pieces. -/
def genSplit (s sep : GoString) (sepSave : Nat) (n : Int) : List GoString :=
  if n = 0 then []
  else if sep = [] then explode s n
  else
    let n : Nat := if n < 0 then Count s sep + 1 else n.toNat
    let n : Nat := if n > s.length + 1 then s.length + 1 else n
    splitLoop sep sepSave (n - 1) s

/-- The function `strings.SplitN`. -/
def SplitN (s sep : GoString) (n : Int) : List GoString := genSplit s sep 0 n

/-- The function `strings.Split`. -/
def Split (s sep : GoString) : List GoString := genSplit s sep 0 (-1)

/-- The function `strings.indexFunc`: the index of the first rune `r` of `s` with
`f r = truth`. `i` is the index of the head of the list and `skip` the number
of bytes of the current rune still to be passed. -/
def indexFuncFrom (f : Nat → Bool) (truth : Bool) : Nat → Nat → GoString → Option Nat
  | _, _, [] => none
  | skip + 1, i, _ :: t => indexFuncFrom f truth skip (i + 1) t
  | 0, i, c :: t =>
    let (r, size) := utf8.DecodeRuneInString (c :: t)
    if f r = truth then some i else indexFuncFrom f truth (size - 1) (i + 1) t

def indexFunc (s : GoString) (f : Nat → Bool) (truth : Bool) : Option Nat :=
  indexFuncFrom f truth 0 0 s

/-- The loop of `strings.lastIndexFunc`, from index `i` down; every iteration
lowers `i`, so `fuel = i` iterations are enough. -/
def lastIndexFuncLoop (s : GoString) (f : Nat → Bool) (truth : Bool) : Nat → Nat → Option Nat
  | 0, _ => none
  | fuel + 1, i =>
    if i = 0 then none
    else
      let (r, size) := utf8.DecodeLastRuneInString (s.take i)
      let i := i - size
      if f r = truth then some i else lastIndexFuncLoop s f truth fuel i

def lastIndexFunc (s : GoString) (f : Nat → Bool) (truth : Bool) : Option Nat :=
  lastIndexFuncLoop s f truth s.length s.length

/-- The function `strings.TrimLeftFunc`. -/
def TrimLeftFunc (s : GoString) (f : Nat → Bool) : GoString :=
  match indexFunc s f false with
  | none => []
  | some i => s.drop i

/-- The function `strings.TrimRightFunc`. -/
def TrimRightFunc (s : GoString) (f : Nat → Bool) : GoString :=
  match lastIndexFunc s f false with
  | some i =>
    if s.getD i 0 ≥ utf8.RuneSelf then s.take (i + (utf8.DecodeRuneInString (s.drop i)).2)
    else s.take (i + 1)
  | none => []

/-- The function `strings.TrimFunc`. -/
def TrimFunc (s : GoString) (f : Nat → Bool) : GoString :=
  TrimRightFunc (TrimLeftFunc s f) f

/-- The table `asciiSpace`. -/
def asciiSpace (c : Byte) : Bool :=
  c = 0x09 ∨ c = 0x0A ∨ c = 0x0B ∨ c = 0x0C ∨ c = 0x0D ∨ c = 0x20

/-- The second loop of `strings.TrimSpace`, on `s = s[start:]`: `stop` moves
down from the end over ASCII spaces. -/
def trimSpaceRight (s : GoString) : Nat → GoString
  | 0 => []
  | stop + 1 =>
    let c := s.getD stop 0
    if c ≥ utf8.RuneSelf then TrimRightFunc (s.take (stop + 1)) unicode.IsSpace
    else if asciiSpace c then trimSpaceRight s stop
    else s.take (stop + 1)

/-- The function `strings.TrimSpace`: `s` without leading and trailing white space. The
recursion is the first loop (`start` moving up over ASCII spaces). -/
def TrimSpace : GoString → GoString
  | [] => []
  | c :: t =>
    if c ≥ utf8.RuneSelf then TrimFunc (c :: t) unicode.IsSpace
    else if asciiSpace c then TrimSpace t
    else trimSpaceRight (c :: t) (c :: t).length

end strings

/-! ## Data model of `main.go` -/

/-- A Go `[]byte` made by `buf[:n]`: the first `len` bytes of the buffer at
address `addr`. The slice shares the buffer: it holds no bytes of its own. -/
structure ByteSlice where
  addr : Nat
  len : Nat
deriving DecidableEq

/-- The memory that holds the read buffers of the client handlers, by
address. -/
abbrev Heap := Nat → List Byte

/-- The bytes a slice denotes in the current memory. -/
def load (heap : Heap) (s : ByteSlice) : List Byte := (heap s.addr).take s.len

/-- The effect of a successful `conn.Read(buf)` that delivers `chunk`
(`n = len(chunk)` bytes, at most `len(buf)`): the first `n` bytes of the
buffer at `addr` are overwritten. -/
def connRead (heap : Heap) (addr : Nat) (chunk : List Byte) : Heap :=
  fun a => if a = addr then chunk ++ (heap a).drop chunk.length else heap a

/-- The struct `Message`; `Msg` is `none` for the `nil` slice. -/
structure Message where
  Msg : Option ByteSlice
  End : GoString
  session : GoString
  customerId : GoString
deriving DecidableEq

/-- The bytes of `msg.Msg` in the current memory (none for `nil`). -/
def Message.payload (heap : Heap) (msg : Message) : List Byte :=
  match msg.Msg with
  | none => []
  | some s => load heap s

/-! ## `Server.handleClient` -/

/-- The locals of `handleClient`: the address of `buf` and the two strings. -/
structure HandlerState where
  buf : Nat
  customerId : GoString
  session : GoString
deriving DecidableEq

/-- How the body of the read loop ends: `continue` (or the end of the body),
or `break`. -/
inductive Control where
  | next
  | leave
deriving DecidableEq

/-- What one iteration of the read loop does after a successful read. -/
structure ReadStep where
  heap : Heap
  st : HandlerState
  msg : Message
  control : Control

/-- The body of the read loop of `handleClient` for a read that succeeds with
`chunk`: the read into `buf`, `data := buf[:n]`, the classification and the
send of one `Message` on `msgch` (the queue is open and has room: the send
completes). `none` is an out-of-range index. -/
def handleRead (heap : Heap) (st : HandlerState) (chunk : List Byte) : Option ReadStep :=
  let heap := connRead heap st.buf chunk
  let data : ByteSlice := ⟨st.buf, chunk.length⟩
  if strings.Contains (load heap data) (ascii "session:") then
    match (strings.SplitN (load heap data) (ascii "session:") 2)[1]? with
    | none => none
    | some sessionData =>
      let session := strings.TrimSpace sessionData
      match (strings.Split session (ascii "-"))[0]? with
      | none => none
      | some customerId =>
        some ⟨heap, { st with customerId := customerId, session := session },
          { Msg := none, End := [], session := session, customerId := customerId }, .next⟩
  else if strings.Contains (load heap data) (ascii "END") then
    some ⟨heap, st,
      { Msg := none, End := ascii "END", session := st.session, customerId := st.customerId },
      .leave⟩
  else
    some ⟨heap, st,
      { Msg := some data, End := [], session := st.session, customerId := st.customerId },
      .next⟩

/-- The result of `conn.Read(buf)`: `n` bytes, or one of the errors the
handler tells apart. -/
inductive ReadResult where
  | data (chunk : List Byte)
  | timeout
  | eof
  | closed
  | other
deriving DecidableEq

/-- How a run of `handleClient` ends. -/
inductive HandlerExit where
  /-- The script of reads is used up: the handler is inside `conn.Read`. -/
  | reading
  /-- A read error: `return` without a reply. -/
  | returned
  /-- A `break` on a terminator: the reply is written to the client. -/
  | replied
  /-- An out-of-range index. -/
  | aborted
deriving DecidableEq

/-- A run of `handleClient`: the Messages sent on `msgch`, in order, the
memory and the locals at the end. -/
structure HandlerRun where
  published : List Message
  heap : Heap
  st : HandlerState
  exit : HandlerExit

/-- The read loop of `handleClient` over the results of its reads. -/
def readLoop (heap : Heap) (st : HandlerState) : List ReadResult → HandlerRun
  | [] => ⟨[], heap, st, .reading⟩
  | .data chunk :: rest =>
    match handleRead heap st chunk with
    | none => ⟨[], heap, st, .aborted⟩
    | some r =>
      match r.control with
      | .leave => ⟨[r.msg], r.heap, r.st, .replied⟩
      | .next =>
        let run := readLoop r.heap r.st rest
        { run with published := r.msg :: run.published }
  | _ :: _ => ⟨[], heap, st, .returned⟩

/-- The method `Server.handleClient` with `buf` allocated at `addr`. The reply
that is written to the client after a `break` is the exit `replied`. -/
def handleClient (heap : Heap) (addr : Nat) (reads : List ReadResult) : HandlerRun :=
  readLoop (fun a => if a = addr then List.replicate 1024 0 else heap a) ⟨addr, [], []⟩ reads

/-! ## Package `encoding/json`, for the structs `Product` and
`AiSearchProductNameReq` -/

/-- The struct `Product`. -/
structure Product where
  ProductName : GoString
  Sku : GoString
deriving DecidableEq

/-- The struct `AiSearchProductNameReq`; `ListProduct` is a non-nil slice. -/
structure AiSearchProductNameReq where
  ProductName : GoString
  ListProduct : List Product
deriving DecidableEq

namespace json

/-- The digits `hex`. -/
def hex (n : Nat) : Byte := (ascii "0123456789abcdef").getD n 0

/-- The table `htmlSafeSet`: the ASCII bytes written without an escape. -/
def htmlSafeSet (b : Byte) : Bool :=
  0x20 ≤ b ∧ b < 0x80 ∧ b ≠ 0x22 ∧ b ≠ 0x26 ∧ b ≠ 0x3C ∧ b ≠ 0x3E ∧ b ≠ 0x5C

/-- The `switch b` of `appendString`: the escape of an ASCII byte that is not
in `htmlSafeSet`. -/
def escapeByte (b : Byte) : GoString :=
  if b = 0x5C ∨ b = 0x22 then [0x5C, b]
  else if b = 0x08 then [0x5C, 0x62]
  else if b = 0x0C then [0x5C, 0x66]
  else if b = 0x0A then [0x5C, 0x6E]
  else if b = 0x0D then [0x5C, 0x72]
  else if b = 0x09 then [0x5C, 0x74]
  else [0x5C, 0x75, 0x30, 0x30, hex (b >>> 4), hex (b &&& 0xF)]

/-- The loop of `appendString` with `escapeHTML` set. `skip` bytes of the
current rune are still to be passed, copied when `copy` holds. -/
def appendStringFrom : Bool → Nat → GoString → GoString
  | _, _, [] => []
  | copy, skip + 1, c :: t => (if copy then [c] else []) ++ appendStringFrom copy skip t
  | _, 0, c :: t =>
    if c < utf8.RuneSelf then
      (if htmlSafeSet c then [c] else escapeByte c) ++ appendStringFrom true 0 t
    else
      let (r, size) := utf8.DecodeRuneInString ((c :: t).take utf8.UTFMax)
      if r = utf8.RuneError ∧ size = 1 then
        [0x5C, 0x75, 0x66, 0x66, 0x66, 0x64] ++ appendStringFrom true 0 t
      else if r = 0x2028 ∨ r = 0x2029 then
        [0x5C, 0x75, 0x32, 0x30, 0x32, hex (r &&& 0xF)] ++ appendStringFrom false (size - 1) t
      else c :: appendStringFrom true (size - 1) t

/-- The function `appendString`: a JSON string literal. -/
def appendString (s : GoString) : GoString :=
  [0x22] ++ appendStringFrom true 0 s ++ [0x22]

/-- The encoding of a `Product`: its fields in order, under their tags. -/
def MarshalProduct (p : Product) : GoString :=
  ascii "\x7b\"product_name\":" ++ appendString p.ProductName ++
    ascii ",\"sku\":" ++ appendString p.Sku ++ ascii "\x7d"

/-- The function `json.Marshal` on an `AiSearchProductNameReq`: the fields in
order under their tags, the slice as an array; the error is `nil` for a value
of this type. -/
def Marshal (v : AiSearchProductNameReq) : GoString × Option GoString :=
  (ascii "\x7b\"product_name\":" ++ appendString v.ProductName ++
    ascii ",\"list_products\":[" ++
    (ascii ",").intercalate (v.ListProduct.map MarshalProduct) ++ ascii "]\x7d", none)

end json

/-! ## The upstream connection -/

/-- The text of a Go `error` (`err.Error()`). -/
abbrev Error := GoString

/-- What the upstream connection does with one `Write`: it takes all the
bytes, or it takes the first `n` and fails with `err`. -/
inductive WriteOutcome where
  | ok
  | fail (n : Nat) (err : Error)
deriving DecidableEq

/-- An upstream connection: the outcomes of its coming writes, in order;
every write after those succeeds. -/
abbrev Conn := List WriteOutcome

/-- One call of `conn.Write`: the bytes passed, how many were written, and
the error. -/
structure WriteEvent where
  data : GoString
  n : Nat
  err : Option Error
deriving DecidableEq

/-- The lines `sendFile` and the dispatcher loop of `main` write to the log. -/
inductive LogLine where
  | session (session : GoString)
  | errSession (err : Error)
  | errNameApi (err : Error)
  | sessionSent
  | brokenPipeAttempt
  | errData (err : Error)
  | errEND1 (err : Error)
  | errMarshal (err : Error)
  | errEND2 (err : Error)
  | errDialing (err : Error)
  | brokenPipeReconnecting
  | sendFileError (err : Error)
deriving DecidableEq

/-- The connection, the writes made on it and the log lines, in the course
of one call of `sendFile`. -/
structure Out where
  conn : Conn
  writes : List WriteEvent
  logs : List LogLine
deriving DecidableEq

/-- The call `conn.Write(p)`. -/
def Out.write (o : Out) (p : GoString) : Out × Option Error :=
  match o.conn with
  | [] => ({ o with writes := o.writes ++ [⟨p, p.length, none⟩] }, none)
  | .ok :: rest => ({ o with conn := rest, writes := o.writes ++ [⟨p, p.length, none⟩] }, none)
  | .fail n err :: rest =>
    ({ o with conn := rest, writes := o.writes ++ [⟨p, min n p.length, some err⟩] }, some err)

/-- The calls `log.Println` and `log.Printf`. -/
def Out.log (o : Out) (l : LogLine) : Out := { o with logs := o.logs ++ [l] }

/-! ## `Server.sendFile` -/

/-- The request `data` that `sendFile` builds for a terminator. -/
def searchRequest : AiSearchProductNameReq :=
  { ProductName := ascii "coca"
    ListProduct :=
      [ { ProductName := ascii "B" ++ [0xC3, 0xA1] ++ ascii "nh Custas kem tr" ++
            [0xE1, 0xBB, 0xA9] ++ ascii "ng - H" ++ [0xE1, 0xBB, 0x99] ++ ascii "p x 20 b" ++
            [0xC3, 0xA1] ++ ascii "nh (460g)"
          Sku := ascii "VN-FM-HXJ-782-001" },
        { ProductName := ascii "B" ++ [0xC3, 0xA1] ++ ascii "nh Chocopie - H" ++
            [0xE1, 0xBB, 0x99] ++ ascii "p x 20 b" ++ [0xC3, 0xA1] ++ ascii "nh (600g)"
          Sku := ascii "VN-FM-PAJ-104-001" } ] }

/-- The part of `sendFile` under `if msg.End == "END"`. -/
def sendEnd (o : Out) : Out × Option Error :=
  match o.write (ascii "END1") with
  | (o, some err) => (o.log (.errEND1 err), some err)
  | (o, none) =>
    match json.Marshal searchRequest with
    | (_, some err) => (o.log (.errMarshal err), some err)
    | (context, none) =>
      match o.write context with
      | (o, some err) => (o.log (.errData err), some err)
      | (o, none) =>
        match o.write (ascii "END2") with
        | (o, some err) => (o.log (.errEND2 err), some err)
        | (o, none) => (o, none)

/-- The part of `sendFile` under `if !isSent && msg.session != ""`. The
assignment `isSent = true` at its end is to the parameter of `sendFile`, a copy
of the caller's variable, and nothing reads it afterwards. -/
def sendSession (o : Out) (msg : Message) : Out × Option Error :=
  match o.write (ascii "session:" ++ msg.session ++ ascii "\n") with
  | (o, some err) => (o.log (.errSession err), some err)
  | (o, none) =>
    match o.write (ascii "name_api:voice_to_action\n") with
    | (o, some err) => (o.log (.errNameApi err), some err)
    | (o, none) => (o.log .sessionSent, none)

/-- The method `Server.sendFile(isSent, conn, msg)`: the connection afterwards
with the writes and log lines of the call, and the error returned. -/
def sendFile (heap : Heap) (isSent : Bool) (conn : Conn) (msg : Message) : Out × Option Error :=
  let o : Out := Out.log ⟨conn, [], []⟩ (.session msg.session)
  let primed : Out × Option Error :=
    if !isSent && msg.session != [] then sendSession o msg else (o, none)
  match primed with
  | (o, some err) => (o, some err)
  | (o, none) =>
    match o.write (msg.payload heap) with
    | (o, some err) =>
      if strings.Contains err (ascii "broken pipe") then (o.log .brokenPipeAttempt, some err)
      else (o.log (.errData err), some err)
    | (o, none) =>
      if msg.End = ascii "END" then sendEnd o else (o, none)

/-! ## The dispatcher loop of `main` -/

/-- The result of `net.Dial`. -/
inductive DialResult where
  | refused (err : Error)
  | connected (conn : Conn)
deriving DecidableEq

/-- What the dispatcher does, in order. -/
inductive Event where
  /-- A call of `net.Dial` and its error (`none`: connected). -/
  | dial (err : Option Error)
  | log (l : LogLine)
  /-- The call `time.Sleep(time.Second)`. -/
  | sleep
  /-- A call of `sendFile` on `msg`, with its writes, log lines and result. -/
  | send (msg : Message) (writes : List WriteEvent) (logs : List LogLine) (err : Option Error)
  /-- A call of `conn.Close()`. -/
  | close
deriving DecidableEq

/-- Where the dispatcher stands when the run stops for want of input. -/
inductive Waiting where
  /-- In `net.Dial`: the script of dial results is used up. -/
  | dial
  /-- In the receive of `range server.msgch`: the queue is empty and open. -/
  | message
deriving DecidableEq

/-- A run of the dispatcher: what it did, the Messages still in the queue and
where it stands. -/
structure Run where
  events : List Event
  rest : List Message
  waiting : Waiting
deriving DecidableEq

/-- The run `r` with the events `evs` before its own. -/
def Run.after (evs : List Event) (r : Run) : Run := { r with events := evs ++ r.events }

/-- The log line of the dispatcher for an error of `sendFile`. -/
def reconnectLog (err : Error) : LogLine :=
  if strings.Contains err (ascii "broken pipe") then .brokenPipeReconnecting
  else .sendFileError err

/-- The loop `for msg := range server.msgch` on the connection `conn`, over
the Messages in the queue; `closed` tells whether the queue is closed after
them. `redial` is the outer loop after this connection, given the Messages
left. The variable `isSent` of `main` is passed as it is: nothing assigns
it in the loop. -/
def rangeLoop (heap : Heap) (closed : Bool) (isSent : Bool) (redial : List Message → Run) :
    Conn → List Message → Run
  | _, [] =>
    if closed then (redial []).after [.close] else ⟨[], [], .message⟩
  | conn, msg :: rest =>
    match sendFile heap isSent conn msg with
    | (o, some err) =>
      (redial rest).after
        [.send msg o.writes o.logs (some err), .log (reconnectLog err), .close, .close]
    | (o, none) =>
      (rangeLoop heap closed isSent redial o.conn rest).after [.send msg o.writes o.logs none]

/-- The goroutine of `main`: dial, relay until an error or the end of the
queue, close, and again; over the results of its dials. `heap` is the memory
at the calls of `sendFile`, and `msgs` the Messages of the queue in order. -/
def dispatcher (heap : Heap) (closed : Bool) : List DialResult → List Message → Run
  | [], msgs => ⟨[], msgs, .dial⟩
  | .refused err :: dials, msgs =>
    (dispatcher heap closed dials msgs).after [.dial (some err), .log (.errDialing err), .sleep]
  | .connected conn :: dials, msgs =>
    (rangeLoop heap closed false (dispatcher heap closed dials) conn msgs).after [.dial none]

/-- The bytes written upstream by the writes of a call. -/
def bytesWritten (ws : List WriteEvent) : List Byte := (ws.map fun w => w.data.take w.n).flatten

/-- The Messages handed to `sendFile`, in order. -/
def handed : List Event → List Message
  | [] => []
  | .send msg _ _ _ :: evs => msg :: handed evs
  | _ :: evs => handed evs

/-- The bytes written upstream in the course of a run, in order. -/
def upstreamBytes : List Event → List Byte
  | [] => []
  | .send _ ws _ _ :: evs => bytesWritten ws ++ upstreamBytes evs
  | _ :: evs => upstreamBytes evs

/-! ## `Server.Start` and `main` -/

/-- How a call of `Server.Start` ends. -/
inductive StartResult where
  /-- The call `net.Listen` failed: `return err`, the queue as it was. -/
  | listenFailed (err : Error)
  /-- A value came on `quitch`: `close(s.msgch)` and `return nil`. -/
  | quit
  /-- No value comes on `quitch`: the call stays in the receive. -/
  | serving
deriving DecidableEq

/-- The method `Server.Start`: `listen` is the error of `net.Listen`, and
`quit` tells whether the receive `<-s.quitch` gets a value. Nothing in the
program sends on `quitch` or closes it. -/
def Start (listen : Option Error) (quit : Bool) : StartResult :=
  match listen with
  | some err => .listenFailed err
  | none => if quit then .quit else .serving

/-- A run of the program: what the dispatcher goroutine did, whether the
queue has been closed, and whether the process has ended, and with it the
dispatcher loop. -/
structure MainRun where
  events : List Event
  queueClosed : Bool
  ended : Bool
deriving DecidableEq

/-- The function `main`: the dispatcher goroutine is started, `server.Start()`
is called, and `main` returns when that call returns, which ends the process
and every goroutine. `steps` is the number of events of the dispatcher up to
that moment. -/
def main (heap : Heap) (listen : Option Error) (quit : Bool) (steps : Nat)
    (dials : List DialResult) (msgs : List Message) : MainRun :=
  match Start listen quit with
  | .listenFailed _ => ⟨(dispatcher heap false dials msgs).events.take steps, false, true⟩
  | .quit => ⟨(dispatcher heap true dials msgs).events.take steps, true, true⟩
  | .serving => ⟨(dispatcher heap false dials msgs).events, false, false⟩

/-! ## Words of the specification -/

/-- The byte string `sub` occurs in `s` (`s` contains the substring `sub`). -/
def Occurs (sub s : GoString) : Prop := ∃ pre post, s = pre ++ sub ++ post

/-- The JSON text of the search request, byte for byte: an object with
`"product_name"` the string `"coca"` and `"list_products"` the array of the two
objects of a `"product_name"` and a `"sku"`; the letters outside ASCII are
their UTF-8 bytes, as in the source text. -/
def searchRequestJSON : GoString :=
  ascii "\x7b\"product_name\":\"coca\",\"list_products\":[\x7b\"product_name\":\"B" ++
  [0xC3, 0xA1] ++ ascii "nh Custas kem tr" ++ [0xE1, 0xBB, 0xA9] ++ ascii "ng - H" ++
  [0xE1, 0xBB, 0x99] ++ ascii "p x 20 b" ++ [0xC3, 0xA1] ++
  ascii "nh (460g)\",\"sku\":\"VN-FM-HXJ-782-001\"\x7d,\x7b\"product_name\":\"B" ++
  [0xC3, 0xA1] ++ ascii "nh Chocopie - H" ++ [0xE1, 0xBB, 0x99] ++ ascii "p x 20 b" ++
  [0xC3, 0xA1] ++ ascii "nh (600g)\",\"sku\":\"VN-FM-PAJ-104-001\"\x7d]\x7d"

/-- The piece of `session` that `Split(session, "-")[0]` yields. -/
def firstPiece (session : GoString) : GoString :=
  match strings.Index session (ascii "-") with
  | none => session
  | some k => session.take k

/-- A session-announce Message: a nil payload and an empty `End`. -/
def Message.isAnnounce (m : Message) : Bool := m.Msg.isNone && m.End == []

/-- The Messages of `ms` carry the pair `(s, c)` up to the first
session-announce, and after a session-announce the pair of the latest one. -/
def Tagged (s c : GoString) (ms : List Message) : Prop :=
  (∀ (i : Nat) (m : Message), ms[i]? = some m →
    (∀ (k : Nat) (a : Message), k ≤ i → ms[k]? = some a → a.isAnnounce = false) →
    m.session = s ∧ m.customerId = c) ∧
  (∀ (j i : Nat) (a m : Message), j ≤ i → ms[j]? = some a → ms[i]? = some m →
    a.isAnnounce = true →
    (∀ (k : Nat) (b : Message), j < k → k ≤ i → ms[k]? = some b → b.isAnnounce = false) →
    m.session = a.session ∧ m.customerId = a.customerId)

/-- A write that takes all the bytes of `p`. -/
def fullWrite (p : GoString) : WriteEvent := ⟨p, p.length, none⟩

/-- The writes so far all succeeded. -/
def Clean (o : Out) : Prop := ∀ w ∈ o.writes, w.err = none

/-- The last write failed with `e`, and the writes before it succeeded. -/
def Failed (o : Out) (e : Error) : Prop :=
  ∃ ws w, o.writes = ws ++ [w] ∧ w.err = some e ∧ ∀ x ∈ ws, x.err = none

/-- The number of calls of `net.Dial` among the events. -/
def dialCount : List Event → Nat
  | [] => 0
  | .dial _ :: evs => dialCount evs + 1
  | _ :: evs => dialCount evs

/-- After every failed call of `sendFile` among the events `evs` of a run on
`dials` and `msgs` come the log line, the two calls of `conn.Close()`, and
then the whole run of the dispatcher on the dial results not yet used and the
Messages that follow the failed one in the queue. -/
def Resumes (heap : Heap) (closed : Bool) (dials : List DialResult) (msgs : List Message)
    (evs : List Event) : Prop :=
  ∀ (pre post : List Event) (m : Message) (ws : List WriteEvent) (ls : List LogLine) (e : Error),
    evs = pre ++ .send m ws ls (some e) :: post →
    ∃ tl, msgs = handed pre ++ m :: tl ∧
      post = .log (reconnectLog e) :: .close :: .close ::
        (dispatcher heap closed (dials.drop (dialCount pre)) tl).events

/-- The run stands in `net.Dial` after `n` dials, or in the receive on an
open and empty queue. -/
def Standing (closed : Bool) (n : Nat) (run : Run) : Prop :=
  (run.waiting = .dial ∧ dialCount run.events = n) ∨
    (run.waiting = .message ∧ closed = false ∧ run.rest = [])

/-- The string `s` without its leading and its trailing ASCII white space
(tab, line feed, vertical tab, form feed, carriage return, space). -/
def trimmed (s : GoString) : GoString :=
  (s.dropWhile strings.asciiSpace).rdropWhile strings.asciiSpace

/-! ## Facts about `strings.Index` and the split functions -/

namespace strings

theorem Index_split {sep : GoString} : ∀ {s : GoString} {m : Nat}, Index s sep = some m →
    s = s.take m ++ sep ++ s.drop (m + sep.length) := by
  intro s
  induction s with
  | nil =>
    intro m h
    unfold Index at h
    split at h
    · subst_vars; simp
    · cases h
  | cons c t ih =>
    intro m h
    unfold Index at h
    split at h
    · rename_i hp
      cases h
      rw [List.isPrefixOf_iff_prefix] at hp
      obtain ⟨r, hr⟩ := hp
      rw [← hr]
      simp
    · cases hm : Index t sep with
      | none => rw [hm] at h; cases h
      | some m' =>
        rw [hm] at h
        cases h
        have := ih hm
        simp only [List.take_succ_cons, Nat.add_right_comm m' 1, List.drop_succ_cons,
          List.cons_append]
        exact congrArg (c :: ·) this

theorem Index_le {sep : GoString} : ∀ {s : GoString} {m : Nat}, Index s sep = some m →
    ∀ pre post, s = pre ++ sep ++ post → m ≤ pre.length := by
  intro s
  induction s with
  | nil =>
    intro m h pre post hs
    unfold Index at h
    split at h
    · cases h; exact Nat.zero_le _
    · cases h
  | cons c t ih =>
    intro m h pre post hs
    unfold Index at h
    split at h
    · cases h; exact Nat.zero_le _
    · rename_i hp
      cases hm : Index t sep with
      | none => rw [hm] at h; cases h
      | some m' =>
        rw [hm] at h
        cases h
        cases pre with
        | nil =>
          exfalso
          apply hp
          rw [List.isPrefixOf_iff_prefix]
          exact ⟨post, by simpa using hs.symm⟩
        | cons p pre' =>
          simp only [List.cons_append, List.cons.injEq] at hs
          have := ih hm pre' post (by simpa using hs.2)
          simpa using this

theorem Index_none {sep : GoString} : ∀ {s : GoString}, Index s sep = none → ¬ Occurs sep s := by
  intro s
  induction s with
  | nil =>
    rintro h ⟨pre, post, hs⟩
    unfold Index at h
    split at h
    · cases h
    · rename_i hne
      apply hne
      have h1 := congrArg List.length hs
      simp at h1
      exact List.length_eq_zero.mp (by omega)
  | cons c t ih =>
    rintro h ⟨pre, post, hs⟩
    unfold Index at h
    split at h
    · cases h
    · rename_i hp
      cases hm : Index t sep with
      | some m' => rw [hm] at h; cases h
      | none =>
        cases pre with
        | nil =>
          apply hp
          rw [List.isPrefixOf_iff_prefix]
          exact ⟨post, by simpa using hs.symm⟩
        | cons p pre' =>
          simp only [List.cons_append, List.cons.injEq] at hs
          exact ih hm ⟨pre', post, by simpa using hs.2⟩

/-- The function `strings.Contains` decides whether the substring occurs. -/
theorem Contains_iff (s sep : GoString) : Contains s sep = true ↔ Occurs sep s := by
  unfold Contains
  cases h : Index s sep with
  | none => simpa using Index_none h
  | some m => simpa using ⟨s.take m, s.drop (m + sep.length), Index_split h⟩

theorem Index_some_of_occurs {s sep : GoString} (h : Occurs sep s) : ∃ m, Index s sep = some m := by
  cases hm : Index s sep with
  | none => exact absurd h (Index_none hm)
  | some m => exact ⟨m, rfl⟩

theorem Index_length {s sep : GoString} {m : Nat} (hsep : sep ≠ []) (h : Index s sep = some m) :
    m + sep.length ≤ s.length := by
  have hpos : 0 < sep.length := List.length_pos.mpr hsep
  have h1 := congrArg List.length (Index_split h)
  simp only [List.length_append, List.length_take, List.length_drop] at h1
  omega

/-- The call `SplitN(s, sep, 2)` cuts at the first instance of `sep`. -/
theorem SplitN_two {s sep : GoString} {m : Nat} (hsep : sep ≠ []) (h : Index s sep = some m) :
    SplitN s sep 2 = [s.take m, s.drop (m + sep.length)] := by
  have hl := Index_length hsep h
  have hpos : 0 < sep.length := List.length_pos.mpr hsep
  have h2 : (2 : Int).toNat = 2 := rfl
  have hn : ¬ (2 > s.length + 1) := by omega
  unfold SplitN genSplit
  rw [if_neg (by decide), if_neg hsep]
  simp only [show ¬ ((2 : Int) < 0) by decide, if_false, h2, if_neg hn]
  simp [splitLoop, h]

theorem countLoop_pos {s sep : GoString} {m fuel : Nat} (h : Index s sep = some m) :
    0 < countLoop sep (fuel + 1) s := by
  simp [countLoop, h]

/-- The first piece of `Split(s, sep)`: up to the first instance of `sep`,
or all of `s` when there is none. -/
theorem Split_head {s sep : GoString} (hsep : sep ≠ []) :
    (Split s sep)[0]? = some (match Index s sep with | none => s | some m => s.take m) := by
  simp only [Split, genSplit, hsep, if_false]
  cases h : Index s sep with
  | none =>
    simp only [Int.reduceNeg, Int.reduceLT, if_true]
    cases hk : ((if Count s sep + 1 > s.length + 1 then s.length + 1 else Count s sep + 1) - 1) with
    | zero => simp [splitLoop]
    | succ k => simp [splitLoop, h]
  | some m =>
    have hl := Index_length hsep h
    have hpos : 0 < sep.length := List.length_pos.mpr hsep
    have hc : 0 < Count s sep := by
      simp only [Count, hsep, if_false]
      exact countLoop_pos h
    simp only [Int.reduceNeg, Int.reduceLT, if_true]
    cases hk : ((if Count s sep + 1 > s.length + 1 then s.length + 1 else Count s sep + 1) - 1) with
    | zero => split at hk <;> omega
    | succ k => simp [splitLoop, h]

theorem trimSpaceRight_ascii (s : GoString) (h : ∀ b ∈ s, b < 0x80) :
    ∀ n, n ≤ s.length → trimSpaceRight s n = (s.take n).rdropWhile asciiSpace := by
  intro n
  induction n with
  | zero => intro _; simp [trimSpaceRight]
  | succ n ih =>
    intro hn
    have hlt : n < s.length := hn
    have hget : s.getD n 0 = s[n] := List.getD_eq_getElem s 0 hlt
    have hb : s[n] < 0x80 := h _ (List.getElem_mem hlt)
    have hnot : ¬ (s[n] ≥ utf8.RuneSelf) := Nat.not_le.mpr hb
    rw [List.take_succ, List.getElem?_eq_getElem hlt]
    simp only [Option.toList_some, List.rdropWhile_concat, trimSpaceRight, hget, if_neg hnot]
    split
    · exact ih (Nat.le_of_lt hlt)
    · rw [List.take_succ, List.getElem?_eq_getElem hlt]
      rfl

/-- On a string of ASCII bytes `strings.TrimSpace` removes the leading and
the trailing ASCII white space. -/
theorem TrimSpace_ascii : ∀ (s : GoString), (∀ b ∈ s, b < 0x80) → TrimSpace s = trimmed s := by
  intro s
  induction s with
  | nil => intro _; simp [TrimSpace, trimmed]
  | cons c t ih =>
    intro h
    have hc : ¬ (c ≥ utf8.RuneSelf) := Nat.not_le.mpr (h c (List.mem_cons_self _ _))
    unfold TrimSpace
    rw [if_neg hc]
    by_cases hs : asciiSpace c = true
    · rw [if_pos hs, ih (fun b hb => h b (List.mem_cons_of_mem _ hb))]
      simp [trimmed, List.dropWhile_cons, hs]
    · rw [if_neg hs, trimSpaceRight_ascii _ h _ (Nat.le_refl _), List.take_length]
      simp [trimmed, List.dropWhile_cons, hs]

end strings

/-- The piece before the first instance of `sep` does not contain `sep`. -/
theorem not_occurs_take {s sep : GoString} {m : Nat} (hsep : sep ≠ [])
    (h : strings.Index s sep = some m) : ¬ Occurs sep (s.take m) := by
  rintro ⟨a, b, hab⟩
  have hpos : 0 < sep.length := List.length_pos.mpr hsep
  have hs := strings.Index_split h
  rw [hab] at hs
  have h1 := strings.Index_le h a (b ++ sep ++ s.drop (m + sep.length)) (by simpa using hs)
  have h2 := congrArg List.length hab
  simp only [List.length_append, List.length_take] at h2
  omega

/-! ## Facts about `handleClient` -/

theorem load_connRead (heap : Heap) (addr : Nat) (chunk : List Byte) :
    load (connRead heap addr chunk) ⟨addr, chunk.length⟩ = chunk := by
  simp [load, connRead]

theorem ascii_session_ne : ascii "session:" ≠ [] := by decide

theorem ascii_dash_ne : ascii "-" ≠ [] := by decide

/-- The read of a chunk with the session marker at index `m`. -/
theorem handleRead_announce {heap : Heap} {st : HandlerState} {chunk : List Byte} {m : Nat}
    (h : strings.Index chunk (ascii "session:") = some m) :
    handleRead heap st chunk = some ⟨connRead heap st.buf chunk,
      { st with
        customerId := firstPiece (strings.TrimSpace (chunk.drop (m + (ascii "session:").length)))
        session := strings.TrimSpace (chunk.drop (m + (ascii "session:").length)) },
      { Msg := none, End := []
        session := strings.TrimSpace (chunk.drop (m + (ascii "session:").length))
        customerId := firstPiece (strings.TrimSpace (chunk.drop (m + (ascii "session:").length))) },
      .next⟩ := by
  have hc : strings.Contains chunk (ascii "session:") = true := by simp [strings.Contains, h]
  simp only [handleRead, load_connRead, hc, if_true, strings.SplitN_two ascii_session_ne h]
  simp only [List.getElem?_cons_succ, List.getElem?_cons_zero, strings.Split_head ascii_dash_ne]
  rfl

/-- The read of a chunk with the terminator and without the session marker. -/
theorem handleRead_terminator {heap : Heap} {st : HandlerState} {chunk : List Byte}
    (h1 : strings.Contains chunk (ascii "session:") = false)
    (h2 : strings.Contains chunk (ascii "END") = true) :
    handleRead heap st chunk = some ⟨connRead heap st.buf chunk, st,
      { Msg := none, End := ascii "END", session := st.session, customerId := st.customerId },
      .leave⟩ := by
  simp [handleRead, load_connRead, h1, h2]

/-- The read of a chunk with neither marker. -/
theorem handleRead_payload {heap : Heap} {st : HandlerState} {chunk : List Byte}
    (h1 : strings.Contains chunk (ascii "session:") = false)
    (h2 : strings.Contains chunk (ascii "END") = false) :
    handleRead heap st chunk = some ⟨connRead heap st.buf chunk, st,
      { Msg := some ⟨st.buf, chunk.length⟩, End := [], session := st.session,
        customerId := st.customerId },
      .next⟩ := by
  simp [handleRead, load_connRead, h1, h2]

theorem readLoop_data (heap : Heap) (st : HandlerState) (chunk : List Byte)
    (rest : List ReadResult) (r : ReadStep) (h : handleRead heap st chunk = some r) :
    (readLoop heap st (.data chunk :: rest)).published =
      r.msg :: (match r.control with
        | .leave => []
        | .next => (readLoop r.heap r.st rest).published) := by
  simp only [readLoop, h]
  cases r.control <;> rfl

/-! ## The claims on the client handler -/

/-- C9: for every chunk the classification step of `handleClient` ends
without an out-of-range index: element `[1]` of
`SplitN(chunk, "session:", 2)` exists when the chunk contains `"session:"`,
element `[0]` of `Split(session, "-")` exists for every string `session`, and
the step yields its result for every memory and every state of the handler. -/
theorem C9_classification_total (chunk : List Byte) :
    (Occurs (ascii "session:") chunk →
      ∃ x, (strings.SplitN chunk (ascii "session:") 2)[1]? = some x) ∧
    (∀ session : GoString, ∃ y, (strings.Split session (ascii "-"))[0]? = some y) ∧
    (∀ (heap : Heap) (st : HandlerState), ∃ r, handleRead heap st chunk = some r) := by
  refine ⟨?_, ?_, ?_⟩
  · intro h
    obtain ⟨m, hm⟩ := strings.Index_some_of_occurs h
    exact ⟨_, by rw [strings.SplitN_two ascii_session_ne hm]; rfl⟩
  · intro session
    exact ⟨_, strings.Split_head ascii_dash_ne⟩
  · intro heap st
    cases h1 : strings.Contains chunk (ascii "session:") with
    | true =>
      obtain ⟨m, hm⟩ := strings.Index_some_of_occurs ((strings.Contains_iff _ _).mp h1)
      exact ⟨_, handleRead_announce hm⟩
    | false =>
      cases h2 : strings.Contains chunk (ascii "END") with
      | true => exact ⟨_, handleRead_terminator h1 h2⟩
      | false => exact ⟨_, handleRead_payload h1 h2⟩

theorem C9_classification_total_witness :
    ∃ x, (strings.SplitN (ascii "session:a-1") (ascii "session:") 2)[1]? = some x :=
  (C9_classification_total (ascii "session:a-1")).1 ⟨[], ascii "a-1", by decide⟩

/-- C7: every successful read publishes exactly one Message, and its kind
follows the precedence: a session-announce (nil payload, empty `End`) when the
chunk contains `"session:"`, also when it contains `"END"` as well; otherwise
a terminator (`End = "END"`, nil payload) when the chunk contains `"END"`;
otherwise a payload Message (payload the chunk, empty `End`). The published
list of the loop grows by that one Message. -/
theorem C7_one_message_by_precedence (heap : Heap) (st : HandlerState) (chunk : List Byte) :
    ∃ r, handleRead heap st chunk = some r ∧
      (∀ rest, (readLoop heap st (.data chunk :: rest)).published =
        r.msg :: (match r.control with
          | .leave => []
          | .next => (readLoop r.heap r.st rest).published)) ∧
      (Occurs (ascii "session:") chunk →
        r.msg.Msg = none ∧ r.msg.payload r.heap = [] ∧ r.msg.End = []) ∧
      (¬ Occurs (ascii "session:") chunk → Occurs (ascii "END") chunk →
        r.msg.Msg = none ∧ r.msg.payload r.heap = [] ∧ r.msg.End = ascii "END") ∧
      (¬ Occurs (ascii "session:") chunk → ¬ Occurs (ascii "END") chunk →
        r.msg.payload r.heap = chunk ∧ r.msg.End = []) := by
  cases h1 : strings.Contains chunk (ascii "session:") with
  | true =>
    have o1 := (strings.Contains_iff _ _).mp h1
    obtain ⟨m, hm⟩ := strings.Index_some_of_occurs o1
    refine ⟨_, handleRead_announce hm, fun rest => readLoop_data _ _ _ _ _ (handleRead_announce hm),
      fun _ => ⟨rfl, rfl, rfl⟩, fun h => absurd o1 h, fun h => absurd o1 h⟩
  | false =>
    have o1 : ¬ Occurs (ascii "session:") chunk := fun h => by
      rw [← strings.Contains_iff, h1] at h; cases h
    cases h2 : strings.Contains chunk (ascii "END") with
    | true =>
      refine ⟨_, handleRead_terminator h1 h2,
        fun rest => readLoop_data _ _ _ _ _ (handleRead_terminator h1 h2),
        fun h => absurd h o1, fun _ _ => ⟨rfl, rfl, rfl⟩, fun _ h => ?_⟩
      exact absurd ((strings.Contains_iff _ _).mp h2) h
    | false =>
      have o2 : ¬ Occurs (ascii "END") chunk := fun h => by
        rw [← strings.Contains_iff, h2] at h; cases h
      refine ⟨_, handleRead_payload h1 h2,
        fun rest => readLoop_data _ _ _ _ _ (handleRead_payload h1 h2),
        fun h => absurd h o1, fun _ h => absurd h o2, fun _ _ => ⟨?_, rfl⟩⟩
      exact load_connRead heap st.buf chunk

theorem C7_one_message_by_precedence_witness :
    ∃ r, handleRead (fun _ => []) ⟨0, [], []⟩ (ascii "session:END") = some r ∧
      (∀ rest, (readLoop (fun _ => []) ⟨0, [], []⟩ (.data (ascii "session:END") :: rest)).published =
        r.msg :: (match r.control with
          | .leave => []
          | .next => (readLoop r.heap r.st rest).published)) ∧
      r.msg.Msg = none ∧ r.msg.payload r.heap = [] ∧ r.msg.End = [] := by
  obtain ⟨r, h, hl, ha, _, _⟩ :=
    C7_one_message_by_precedence (fun _ => []) ⟨0, [], []⟩ (ascii "session:END")
  exact ⟨r, h, hl, ha ⟨[], ascii "END", by decide⟩⟩

/-- C3 (as stated, refuted): the chunk `"session:END"` contains `"END"`, yet
the read publishes a session-announce with an empty `End`, no Message with
`End = "END"`, and the loop goes on to the next read. -/
theorem C3_counterexample :
    strings.Contains (ascii "session:END") (ascii "END") = true ∧
    (readLoop (fun _ => []) ⟨0, [], []⟩ [.data (ascii "session:END"), .data (ascii "x")]).published =
      [⟨none, [], ascii "END", ascii "END"⟩, ⟨some ⟨0, 1⟩, [], ascii "END", ascii "END"⟩] ∧
    (readLoop (fun _ => []) ⟨0, [], []⟩ [.data (ascii "session:END"), .data (ascii "x")]).exit =
      .reading := by
  decide

/-- C3 (amended): for every chunk successfully read that contains `"END"`
and does not contain `"session:"`, exactly one Message is published for that
read, its `End` is `"END"`, and the read loop stops: no later read is
performed, whatever further input `rest` the connection holds. -/
theorem C3_terminator_stops_loop (heap : Heap) (st : HandlerState) (chunk : List Byte)
    (rest : List ReadResult) (hE : Occurs (ascii "END") chunk)
    (hS : ¬ Occurs (ascii "session:") chunk) :
    ∃ msg, (readLoop heap st (.data chunk :: rest)).published = [msg] ∧
      msg.End = ascii "END" ∧
      (readLoop heap st (.data chunk :: rest)).exit = .replied := by
  have h1 : strings.Contains chunk (ascii "session:") = false := by
    cases h : strings.Contains chunk (ascii "session:") with
    | false => rfl
    | true => exact absurd ((strings.Contains_iff _ _).mp h) hS
  have h2 := (strings.Contains_iff _ _).mpr hE
  refine ⟨⟨none, ascii "END", st.session, st.customerId⟩, ?_, rfl, ?_⟩
  · simp only [readLoop, handleRead_terminator h1 h2]
  · simp only [readLoop, handleRead_terminator h1 h2]

theorem C3_terminator_stops_loop_witness :
    ∃ msg, (readLoop (fun _ => []) ⟨0, [], []⟩
        (.data (ascii "xENDy") :: [.data (ascii "z")])).published = [msg] ∧
      msg.End = ascii "END" ∧
      (readLoop (fun _ => []) ⟨0, [], []⟩
        (.data (ascii "xENDy") :: [.data (ascii "z")])).exit = .replied :=
  C3_terminator_stops_loop (fun _ => []) ⟨0, [], []⟩ (ascii "xENDy") [.data (ascii "z")]
    ⟨ascii "x", ascii "y", by decide⟩
    (fun h => by rw [← strings.Contains_iff] at h; revert h; decide)

/-- C2 (as stated, refuted): the chunk `"session:abc"` yields the sessionId
`"abc"`, which contains no `"-"`, and the customerId `"abc"`, not the empty
string. -/
theorem C2_counterexample :
    (handleRead (fun _ => []) ⟨0, [], []⟩ (ascii "session:abc")).map (fun r => r.msg) =
      some ⟨none, [], ascii "abc", ascii "abc"⟩ ∧
    strings.Contains (ascii "abc") (ascii "-") = false ∧ ascii "abc" ≠ [] := by
  decide

/-- C2 (amended): for every chunk read that contains `"session:"`, the
sessionId of the published Message is the text after the first occurrence of
`"session:"` with surrounding white space trimmed (by `strings.TrimSpace`,
which on ASCII text removes the leading and trailing ASCII white space), and
the customerId is the part of that sessionId before its first `"-"`, and the
whole sessionId when the sessionId contains no `"-"`. -/
theorem C2_session_and_customer (heap : Heap) (st : HandlerState) (chunk : List Byte)
    (h : Occurs (ascii "session:") chunk) :
    ∃ r pre post, handleRead heap st chunk = some r ∧
      chunk = pre ++ ascii "session:" ++ post ∧
      (∀ pre' post', chunk = pre' ++ ascii "session:" ++ post' → pre.length ≤ pre'.length) ∧
      r.msg.session = strings.TrimSpace post ∧
      ((∀ b ∈ post, b < 0x80) → r.msg.session = trimmed post) ∧
      (Occurs (ascii "-") r.msg.session →
        ∃ tail, r.msg.session = r.msg.customerId ++ ascii "-" ++ tail ∧
          ¬ Occurs (ascii "-") r.msg.customerId) ∧
      (¬ Occurs (ascii "-") r.msg.session → r.msg.customerId = r.msg.session) := by
  obtain ⟨m, hm⟩ := strings.Index_some_of_occurs h
  refine ⟨_, chunk.take m, chunk.drop (m + (ascii "session:").length), handleRead_announce hm,
    strings.Index_split hm, ?_, rfl, fun hb => strings.TrimSpace_ascii _ hb, ?_, ?_⟩
  · intro pre' post' hc
    have := strings.Index_le hm pre' post' hc
    simp only [List.length_take]
    omega
  · intro _
    simp only [firstPiece]
    cases hk : strings.Index (strings.TrimSpace (chunk.drop (m + (ascii "session:").length)))
        (ascii "-") with
    | none => exact absurd ‹_› (strings.Index_none hk)
    | some k => exact ⟨_, strings.Index_split hk, not_occurs_take ascii_dash_ne hk⟩
  · intro hno
    simp only [firstPiece]
    cases hk : strings.Index (strings.TrimSpace (chunk.drop (m + (ascii "session:").length)))
        (ascii "-") with
    | none => rfl
    | some k =>
      exact absurd ⟨_, _, strings.Index_split hk⟩ hno

theorem C2_session_and_customer_witness :
    ∃ r pre post, handleRead (fun _ => []) ⟨0, [], []⟩ (ascii "x session: abc-12-3 ") = some r ∧
      ascii "x session: abc-12-3 " = pre ++ ascii "session:" ++ post ∧
      (∀ pre' post', ascii "x session: abc-12-3 " = pre' ++ ascii "session:" ++ post' →
        pre.length ≤ pre'.length) ∧
      r.msg.session = strings.TrimSpace post ∧
      ((∀ b ∈ post, b < 0x80) → r.msg.session = trimmed post) ∧
      (Occurs (ascii "-") r.msg.session →
        ∃ tail, r.msg.session = r.msg.customerId ++ ascii "-" ++ tail ∧
          ¬ Occurs (ascii "-") r.msg.customerId) ∧
      (¬ Occurs (ascii "-") r.msg.session → r.msg.customerId = r.msg.session) :=
  C2_session_and_customer (fun _ => []) ⟨0, [], []⟩ (ascii "x session: abc-12-3 ")
    ⟨ascii "x ", ascii " abc-12-3 ", by decide⟩

theorem tagged_nil (s c : GoString) : Tagged s c [] := by
  constructor
  · intro i m h; simp at h
  · intro j i a m _ h; simp at h

theorem tagged_cons_plain {s c : GoString} {m0 : Message} {tail : List Message}
    (h0 : m0.isAnnounce = false) (hs : m0.session = s) (hc : m0.customerId = c)
    (ht : Tagged s c tail) : Tagged s c (m0 :: tail) := by
  constructor
  · intro i m hm hk
    cases i with
    | zero =>
      simp only [List.getElem?_cons_zero, Option.some.injEq] at hm
      subst hm
      exact ⟨hs, hc⟩
    | succ i =>
      simp only [List.getElem?_cons_succ] at hm
      exact ht.1 i m hm (fun k a hki hka => hk (k + 1) a (by omega) (by simpa using hka))
  · intro j i a m hji ha hm han hk
    cases j with
    | zero =>
      simp only [List.getElem?_cons_zero, Option.some.injEq] at ha
      subst ha
      rw [h0] at han
      cases han
    | succ j =>
      cases i with
      | zero => omega
      | succ i =>
        simp only [List.getElem?_cons_succ] at ha hm
        exact ht.2 j i a m (by omega) ha hm han
          (fun k b hjk hki hkb => hk (k + 1) b (by omega) (by omega) (by simpa using hkb))

theorem tagged_cons_announce {s c : GoString} {m0 : Message} {tail : List Message}
    (h0 : m0.isAnnounce = true) (ht : Tagged m0.session m0.customerId tail) :
    Tagged s c (m0 :: tail) := by
  constructor
  · intro i m _ hk
    have := hk 0 m0 (Nat.zero_le _) (by simp)
    rw [h0] at this
    cases this
  · intro j i a m hji ha hm han hk
    cases j with
    | zero =>
      simp only [List.getElem?_cons_zero, Option.some.injEq] at ha
      subst ha
      cases i with
      | zero =>
        simp only [List.getElem?_cons_zero, Option.some.injEq] at hm
        subst hm
        exact ⟨rfl, rfl⟩
      | succ i =>
        simp only [List.getElem?_cons_succ] at hm
        exact ht.1 i m hm
          (fun k b hki hkb => hk (k + 1) b (by omega) (by omega) (by simpa using hkb))
    | succ j =>
      cases i with
      | zero => omega
      | succ i =>
        simp only [List.getElem?_cons_succ] at ha hm
        exact ht.2 j i a m (by omega) ha hm han
          (fun k b hjk hki hkb => hk (k + 1) b (by omega) (by omega) (by simpa using hkb))

/-- The read loop from any state tags its Messages with the pair of the
state until a session-announce, and then with the pair of the latest one. -/
theorem readLoop_tagged : ∀ (reads : List ReadResult) (heap : Heap) (st : HandlerState),
    Tagged st.session st.customerId (readLoop heap st reads).published := by
  intro reads
  induction reads with
  | nil => intro heap st; exact tagged_nil _ _
  | cons rd rest ih =>
    intro heap st
    cases rd with
    | data chunk =>
      cases h1 : strings.Contains chunk (ascii "session:") with
      | true =>
        obtain ⟨m, hm⟩ := strings.Index_some_of_occurs ((strings.Contains_iff _ _).mp h1)
        rw [readLoop_data _ _ _ _ _ (handleRead_announce hm)]
        refine tagged_cons_announce rfl ?_
        dsimp only
        exact ih _ _
      | false =>
        cases h2 : strings.Contains chunk (ascii "END") with
        | true =>
          rw [readLoop_data _ _ _ _ _ (handleRead_terminator h1 h2)]
          exact tagged_cons_plain rfl rfl rfl (tagged_nil _ _)
        | false =>
          rw [readLoop_data _ _ _ _ _ (handleRead_payload h1 h2)]
          refine tagged_cons_plain rfl rfl rfl ?_
          dsimp only
          exact ih _ _
    | timeout => exact tagged_nil _ _
    | eof => exact tagged_nil _ _
    | closed => exact tagged_nil _ _
    | other => exact tagged_nil _ _

/-- C6 (as stated, refuted): after the chunks `"session:a-1"`,
`"session:b-2"` and `"x"` the third Message, published after the first
session-announce, carries the pair `("b-2", "b")` and not the pair
`("a-1", "a")` of the first session-announce. -/
theorem C6_counterexample :
    (handleClient (fun _ => []) 0
      [.data (ascii "session:a-1"), .data (ascii "session:b-2"), .data (ascii "x")]).published =
    [⟨none, [], ascii "a-1", ascii "a"⟩, ⟨none, [], ascii "b-2", ascii "b"⟩,
     ⟨some ⟨0, 1⟩, [], ascii "b-2", ascii "b"⟩] ∧ ascii "b-2" ≠ ascii "a-1" := by
  decide

/-- C6 (amended): for every sequence of reads of one client handler, every
Message published before the first session-announce Message carries an empty
sessionId and customerId, and every Message published at or after a
session-announce Message carries the sessionId and customerId of the latest
session-announce Message published up to it. -/
theorem C6_latest_announce_pair (heap : Heap) (addr : Nat) (reads : List ReadResult) :
    (∀ (i : Nat) (m : Message), (handleClient heap addr reads).published[i]? = some m →
      (∀ (k : Nat) (a : Message), k ≤ i →
        (handleClient heap addr reads).published[k]? = some a → a.isAnnounce = false) →
      m.session = [] ∧ m.customerId = []) ∧
    (∀ (j i : Nat) (a m : Message), j ≤ i →
      (handleClient heap addr reads).published[j]? = some a →
      (handleClient heap addr reads).published[i]? = some m → a.isAnnounce = true →
      (∀ (k : Nat) (b : Message), j < k → k ≤ i →
        (handleClient heap addr reads).published[k]? = some b → b.isAnnounce = false) →
      m.session = a.session ∧ m.customerId = a.customerId) :=
  readLoop_tagged reads _ ⟨addr, [], []⟩

theorem C6_latest_announce_pair_witness :
    ∃ a m, (handleClient (fun _ => []) 0
        [.data (ascii "session:a-1"), .data (ascii "session:b-2"), .data (ascii "x")]).published[1]?
        = some a ∧
      (handleClient (fun _ => []) 0
        [.data (ascii "session:a-1"), .data (ascii "session:b-2"), .data (ascii "x")]).published[2]?
        = some m ∧
      a.isAnnounce = true ∧ m.Msg = some ⟨0, 1⟩ ∧
      m.session = a.session ∧ m.customerId = a.customerId := by
  have h1 : (handleClient (fun _ => []) 0
      [.data (ascii "session:a-1"), .data (ascii "session:b-2"), .data (ascii "x")]).published[1]?
      = some ⟨none, [], ascii "b-2", ascii "b"⟩ := by decide
  have h2 : (handleClient (fun _ => []) 0
      [.data (ascii "session:a-1"), .data (ascii "session:b-2"), .data (ascii "x")]).published[2]?
      = some ⟨some ⟨0, 1⟩, [], ascii "b-2", ascii "b"⟩ := by decide
  have h := (C6_latest_announce_pair (fun _ => []) 0
    [.data (ascii "session:a-1"), .data (ascii "session:b-2"), .data (ascii "x")]).2
    1 2 _ _ (by decide) h1 h2 (by decide)
    (fun k b hjk hki hb => by
      have hk : k = 2 := by omega
      subst hk
      rw [h2] at hb
      cases hb
      rfl)
  exact ⟨_, _, h1, h2, by decide, rfl, h.1, h.2⟩

/-! ## Facts about `sendFile` -/

theorem Out.write_ok (o : Out) (p : GoString) (h : ∀ x ∈ o.conn, x = WriteOutcome.ok) :
    o.write p = (⟨o.conn.tail, o.writes ++ [⟨p, p.length, none⟩], o.logs⟩, none) := by
  unfold Out.write
  cases hc : o.conn with
  | nil => rfl
  | cons x rest =>
    have := h x (by rw [hc]; exact List.mem_cons_self _ _)
    subst this
    rfl

theorem allOk_tail {conn : Conn} (h : ∀ x ∈ conn, x = WriteOutcome.ok) :
    ∀ x ∈ conn.tail, x = WriteOutcome.ok :=
  fun x hx => h x (List.mem_of_mem_tail hx)

set_option maxRecDepth 100000 in
/-- The bytes of `json.Marshal(data)` for the request of `sendFile` are the
JSON text of the search request. -/
theorem marshal_searchRequest : (json.Marshal searchRequest).1 = searchRequestJSON := by
  decide

theorem bytesWritten_nil : bytesWritten [] = [] := rfl

theorem bytesWritten_fullWrite (p : GoString) (ws : List WriteEvent) :
    bytesWritten (fullWrite p :: ws) = p ++ bytesWritten ws := by
  simp [bytesWritten, fullWrite]

theorem sendSession_ok (o : Out) (msg : Message) (h : ∀ x ∈ o.conn, x = WriteOutcome.ok) :
    sendSession o msg =
      (⟨o.conn.tail.tail,
        o.writes ++ [fullWrite (ascii "session:" ++ msg.session ++ ascii "\n"),
          fullWrite (ascii "name_api:voice_to_action\n")],
        o.logs ++ [.sessionSent]⟩, none) := by
  unfold sendSession
  rw [Out.write_ok o _ h]
  dsimp only
  rw [Out.write_ok _ _ (allOk_tail h)]
  simp [Out.log, fullWrite]

theorem sendEnd_ok (o : Out) (h : ∀ x ∈ o.conn, x = WriteOutcome.ok) :
    sendEnd o =
      (⟨o.conn.tail.tail.tail,
        o.writes ++ [fullWrite (ascii "END1"), fullWrite (json.Marshal searchRequest).1,
          fullWrite (ascii "END2")],
        o.logs⟩, none) := by
  unfold sendEnd
  rw [Out.write_ok o _ h]
  dsimp only
  have hj : json.Marshal searchRequest = ((json.Marshal searchRequest).1, none) := rfl
  rw [hj]
  dsimp only
  rw [Out.write_ok _ _ (allOk_tail h)]
  dsimp only
  rw [Out.write_ok _ _ (allOk_tail (allOk_tail h))]
  simp [fullWrite]

/-! ## The claims on `sendFile` and the dispatcher -/

/-- C4: on a connection on which all writes succeed, `sendFile` returns no
error, and its writes are, in order: the priming pair when `isSent` is false
and the session is not empty; the payload of the Message (no bytes for an
empty payload); and then, if and only if `End` is `"END"`, the literal
`"END1"`, the JSON encoding of the search request (`product_name` `"coca"`,
`list_products` the two fixed pairs of a `product_name` and a `sku`) and the
literal `"END2"`. Every write takes all its bytes. -/
theorem C4_sendFile_writes (heap : Heap) (isSent : Bool) (conn : Conn) (msg : Message)
    (h : ∀ x ∈ conn, x = WriteOutcome.ok) :
    ∃ o, sendFile heap isSent conn msg = (o, none) ∧
      o.writes =
        (if isSent = false ∧ msg.session ≠ [] then
          [fullWrite (ascii "session:" ++ msg.session ++ ascii "\n"),
            fullWrite (ascii "name_api:voice_to_action\n")]
        else []) ++
        [fullWrite (msg.payload heap)] ++
        (if msg.End = ascii "END" then
          [fullWrite (ascii "END1"), fullWrite searchRequestJSON,
            fullWrite (ascii "END2")]
        else []) ∧
      bytesWritten o.writes =
        (if isSent = false ∧ msg.session ≠ [] then
          ascii "session:" ++ msg.session ++ ascii "\n" ++ ascii "name_api:voice_to_action\n"
        else []) ++
        msg.payload heap ++
        (if msg.End = ascii "END" then
          ascii "END1" ++ searchRequestJSON ++ ascii "END2"
        else []) := by
  rw [← marshal_searchRequest]
  have key : ∃ o, sendFile heap isSent conn msg = (o, none) ∧
      o.writes =
        (if isSent = false ∧ msg.session ≠ [] then
          [fullWrite (ascii "session:" ++ msg.session ++ ascii "\n"),
            fullWrite (ascii "name_api:voice_to_action\n")]
        else []) ++
        [fullWrite (msg.payload heap)] ++
        (if msg.End = ascii "END" then
          [fullWrite (ascii "END1"), fullWrite (json.Marshal searchRequest).1,
            fullWrite (ascii "END2")]
        else []) := by
    unfold sendFile
    by_cases hp : isSent = false ∧ msg.session ≠ []
    · have hc : (!isSent && msg.session != []) = true := by
        obtain ⟨h1, h2⟩ := hp
        subst h1
        simpa using h2
      simp only [hc, if_true, if_pos hp]
      rw [sendSession_ok _ _ (by simpa [Out.log] using h)]
      dsimp only
      rw [Out.write_ok _ _ (by simpa [Out.log] using allOk_tail (allOk_tail h))]
      dsimp only
      by_cases he : msg.End = ascii "END"
      · rw [if_pos he, if_pos he,
          sendEnd_ok _ (by simpa [Out.log] using allOk_tail (allOk_tail (allOk_tail h)))]
        exact ⟨_, rfl, by simp [Out.log, fullWrite]⟩
      · rw [if_neg he, if_neg he]
        exact ⟨_, rfl, by simp [Out.log, fullWrite]⟩
    · have hc : (!isSent && msg.session != []) = false := by
        cases isSent with
        | true => rfl
        | false =>
          have : msg.session = [] := by
            by_contra hne
            exact hp ⟨rfl, hne⟩
          simp [this]
      simp only [hc, if_neg hp]
      simp only [Bool.false_eq_true, if_false]
      rw [Out.write_ok _ _ (by simpa [Out.log] using h)]
      dsimp only
      by_cases he : msg.End = ascii "END"
      · rw [if_pos he, if_pos he, sendEnd_ok _ (by simpa [Out.log] using allOk_tail h)]
        exact ⟨_, rfl, by simp [Out.log, fullWrite]⟩
      · rw [if_neg he, if_neg he]
        exact ⟨_, rfl, by simp [Out.log, fullWrite]⟩
  obtain ⟨o, ho, hw⟩ := key
  refine ⟨o, ho, hw, ?_⟩
  rw [hw]
  by_cases hp : isSent = false ∧ msg.session ≠ [] <;> by_cases he : msg.End = ascii "END" <;>
    simp [hp, he, bytesWritten_fullWrite, bytesWritten_nil]

theorem C4_sendFile_writes_witness :
    (∀ x ∈ ([.ok, .ok] : Conn), x = WriteOutcome.ok) ∧
    ∃ o, sendFile (fun _ => ascii "hello") false [.ok, .ok]
        ⟨some ⟨0, 5⟩, ascii "END", ascii "abc-123", ascii "abc"⟩ = (o, none) ∧
      bytesWritten o.writes =
        ascii "session:abc-123\nname_api:voice_to_action\nhelloEND1" ++
          searchRequestJSON ++ ascii "END2" := by
  refine ⟨by decide, ?_⟩
  obtain ⟨o, h1, _, h3⟩ := C4_sendFile_writes (fun _ => ascii "hello") false [.ok, .ok]
    ⟨some ⟨0, 5⟩, ascii "END", ascii "abc-123", ascii "abc"⟩ (by decide)
  refine ⟨o, h1, ?_⟩
  rw [h3]
  simp only [ne_eq, true_and, if_true, List.append_assoc]
  rfl

theorem write_cases (o : Out) (p : GoString) (h : Clean o) :
    (∃ o', o.write p = (o', none) ∧ Clean o') ∨ (∃ o' e, o.write p = (o', some e) ∧ Failed o' e) := by
  unfold Out.write
  cases hc : o.conn with
  | nil =>
    left
    refine ⟨_, rfl, ?_⟩
    intro w hw
    simp only [List.mem_append, List.mem_singleton] at hw
    rcases hw with hw | hw
    · exact h w hw
    · subst hw; rfl
  | cons x rest =>
    cases x with
    | ok =>
      left
      refine ⟨_, rfl, ?_⟩
      intro w hw
      simp only [List.mem_append, List.mem_singleton] at hw
      rcases hw with hw | hw
      · exact h w hw
      · subst hw; rfl
    | fail n err =>
      right
      exact ⟨_, err, rfl, o.writes, _, rfl, rfl, h⟩

theorem clean_log {o : Out} (l : LogLine) (h : Clean o) : Clean (o.log l) := h

theorem failed_log {o : Out} {e : Error} (l : LogLine) (h : Failed o e) : Failed (o.log l) e := h

theorem sendSession_cases (o : Out) (msg : Message) (h : Clean o) :
    (∃ o', sendSession o msg = (o', none) ∧ Clean o') ∨
      (∃ o' e, sendSession o msg = (o', some e) ∧ Failed o' e) := by
  unfold sendSession
  rcases write_cases o (ascii "session:" ++ msg.session ++ ascii "\n") h with
    ⟨o1, h1, c1⟩ | ⟨o1, e, h1, f1⟩
  · rw [h1]
    dsimp only
    rcases write_cases o1 (ascii "name_api:voice_to_action\n") c1 with
      ⟨o2, h2, c2⟩ | ⟨o2, e, h2, f2⟩
    · rw [h2]
      exact Or.inl ⟨_, rfl, clean_log _ c2⟩
    · rw [h2]
      exact Or.inr ⟨_, e, rfl, failed_log _ f2⟩
  · rw [h1]
    exact Or.inr ⟨_, e, rfl, failed_log _ f1⟩

theorem sendEnd_cases (o : Out) (h : Clean o) :
    (∃ o', sendEnd o = (o', none) ∧ Clean o') ∨
      (∃ o' e, sendEnd o = (o', some e) ∧ Failed o' e) := by
  unfold sendEnd
  have hj : json.Marshal searchRequest = ((json.Marshal searchRequest).1, none) := rfl
  rcases write_cases o (ascii "END1") h with ⟨o1, h1, c1⟩ | ⟨o1, e, h1, f1⟩
  · rw [h1, hj]
    dsimp only
    rcases write_cases o1 (json.Marshal searchRequest).1 c1 with ⟨o2, h2, c2⟩ | ⟨o2, e, h2, f2⟩
    · rw [h2]
      dsimp only
      rcases write_cases o2 (ascii "END2") c2 with ⟨o3, h3, c3⟩ | ⟨o3, e, h3, f3⟩
      · rw [h3]
        exact Or.inl ⟨_, rfl, c3⟩
      · rw [h3]
        exact Or.inr ⟨_, e, rfl, failed_log _ f3⟩
    · rw [h2]
      exact Or.inr ⟨_, e, rfl, failed_log _ f2⟩
  · rw [h1]
    exact Or.inr ⟨_, e, rfl, failed_log _ f1⟩

/-- A call of `sendFile` ends without an error and with all its writes
done, or with the error of its last write, the writes before it done. -/
theorem sendFile_cases (heap : Heap) (isSent : Bool) (conn : Conn) (msg : Message) :
    (∃ o', sendFile heap isSent conn msg = (o', none) ∧ Clean o') ∨
      (∃ o' e, sendFile heap isSent conn msg = (o', some e) ∧ Failed o' e) := by
  unfold sendFile
  have c0 : Clean (Out.log ⟨conn, [], []⟩ (.session msg.session)) := by
    intro w hw
    simp [Out.log] at hw
  have hprimed : (∃ o', (if (!isSent && msg.session != []) = true then
        sendSession (Out.log ⟨conn, [], []⟩ (.session msg.session)) msg
        else (Out.log ⟨conn, [], []⟩ (.session msg.session), none)) = (o', none) ∧ Clean o') ∨
      (∃ o' e, (if (!isSent && msg.session != []) = true then
        sendSession (Out.log ⟨conn, [], []⟩ (.session msg.session)) msg
        else (Out.log ⟨conn, [], []⟩ (.session msg.session), none)) = (o', some e) ∧
        Failed o' e) := by
    split
    · exact sendSession_cases _ _ c0
    · exact Or.inl ⟨_, rfl, c0⟩
  rcases hprimed with ⟨o1, h1, c1⟩ | ⟨o1, e, h1, f1⟩
  · simp only [h1]
    rcases write_cases o1 (msg.payload heap) c1 with ⟨o2, h2, c2⟩ | ⟨o2, e, h2, f2⟩
    · rw [h2]
      dsimp only
      split
      · exact sendEnd_cases _ c2
      · exact Or.inl ⟨_, rfl, c2⟩
    · rw [h2]
      dsimp only
      split
      · exact Or.inr ⟨_, e, rfl, failed_log _ f2⟩
      · exact Or.inr ⟨_, e, rfl, failed_log _ f2⟩
  · simp only [h1]
    exact Or.inr ⟨_, e, rfl, f1⟩

/-! ## Facts about the dispatcher loop -/

theorem after_events (evs : List Event) (r : Run) : (r.after evs).events = evs ++ r.events := rfl

theorem after_rest (evs : List Event) (r : Run) : (r.after evs).rest = r.rest := rfl

theorem after_waiting (evs : List Event) (r : Run) : (r.after evs).waiting = r.waiting := rfl

theorem handed_append (a b : List Event) : handed (a ++ b) = handed a ++ handed b := by
  induction a with
  | nil => rfl
  | cons x a ih => cases x <;> simp [handed, ih]

theorem dialCount_append (a b : List Event) : dialCount (a ++ b) = dialCount a + dialCount b := by
  induction a with
  | nil => simp [dialCount]
  | cons x a ih =>
    cases x <;> simp [dialCount, ih]
    omega

theorem resumes_nil (heap : Heap) (closed : Bool) (dials : List DialResult)
    (msgs : List Message) : Resumes heap closed dials msgs [] := by
  intro pre post m ws ls e h
  cases pre <;> simp at h

/-- An occurrence past the first event `x`, which hands `hx` to `sendFile`
and uses `n` dial results. -/
theorem resumes_tail {heap : Heap} {closed : Bool} {dials dials' : List DialResult}
    {msgs msgs' : List Message} {x : Event} {evs : List Event}
    (h : Resumes heap closed dials' msgs' evs) (hm : msgs = handed [x] ++ msgs')
    (hd : ∀ l, dials.drop (dialCount (x :: l)) = dials'.drop (dialCount l))
    (pre' post : List Event) (m : Message) (ws : List WriteEvent) (ls : List LogLine)
    (e : Error) (heq : evs = pre' ++ .send m ws ls (some e) :: post) :
    ∃ tl, msgs = handed (x :: pre') ++ m :: tl ∧
      post = .log (reconnectLog e) :: .close :: .close ::
        (dispatcher heap closed (dials.drop (dialCount (x :: pre'))) tl).events := by
  obtain ⟨tl, h1, h2⟩ := h pre' post m ws ls e heq
  refine ⟨tl, ?_, ?_⟩
  · have : handed (x :: pre') = handed [x] ++ handed pre' := handed_append [x] pre'
    rw [hm, h1, this, List.append_assoc]
  · rw [hd pre']
    exact h2

theorem resumes_cons {heap : Heap} {closed : Bool} {dials dials' : List DialResult}
    {msgs msgs' : List Message} {x : Event} {evs : List Event}
    (hx : ∀ m ws ls e, x ≠ .send m ws ls (some e))
    (h : Resumes heap closed dials' msgs' evs) (hm : msgs = handed [x] ++ msgs')
    (hd : ∀ l, dials.drop (dialCount (x :: l)) = dials'.drop (dialCount l)) :
    Resumes heap closed dials msgs (x :: evs) := by
  intro pre post m ws ls e heq
  cases pre with
  | nil =>
    simp only [List.nil_append, List.cons.injEq] at heq
    exact absurd heq.1 (hx m ws ls e)
  | cons y pre' =>
    simp only [List.cons_append, List.cons.injEq] at heq
    obtain ⟨hy, heq⟩ := heq
    subst hy
    exact resumes_tail h hm hd pre' post m ws ls e heq

theorem resumes_log {heap : Heap} {closed : Bool} {dials : List DialResult}
    {msgs : List Message} {evs : List Event} (l : LogLine)
    (h : Resumes heap closed dials msgs evs) : Resumes heap closed dials msgs (.log l :: evs) := by
  refine resumes_cons ?_ h rfl ?_
  · intros; simp
  · intro _; rfl

theorem resumes_close {heap : Heap} {closed : Bool} {dials : List DialResult}
    {msgs : List Message} {evs : List Event}
    (h : Resumes heap closed dials msgs evs) : Resumes heap closed dials msgs (.close :: evs) := by
  refine resumes_cons ?_ h rfl ?_
  · intros; simp
  · intro _; rfl

theorem resumes_sleep {heap : Heap} {closed : Bool} {dials : List DialResult}
    {msgs : List Message} {evs : List Event}
    (h : Resumes heap closed dials msgs evs) : Resumes heap closed dials msgs (.sleep :: evs) := by
  refine resumes_cons ?_ h rfl ?_
  · intros; simp
  · intro _; rfl

theorem resumes_sent {heap : Heap} {closed : Bool} {dials : List DialResult}
    {tl : List Message} {evs : List Event} (m : Message) (ws : List WriteEvent)
    (ls : List LogLine) (h : Resumes heap closed dials tl evs) :
    Resumes heap closed dials (m :: tl) (.send m ws ls none :: evs) := by
  refine resumes_cons ?_ h rfl ?_
  · intros; simp
  · intro _; rfl

theorem resumes_dial {heap : Heap} {closed : Bool} {dials : List DialResult}
    {msgs : List Message} {evs : List Event} (d : DialResult) (r : Option Error)
    (h : Resumes heap closed dials msgs evs) :
    Resumes heap closed (d :: dials) msgs (.dial r :: evs) := by
  refine resumes_cons ?_ h rfl ?_
  · intros; simp
  · intro _; rfl

theorem resumes_fail {heap : Heap} {closed : Bool} {dials : List DialResult} {m : Message}
    {tl : List Message} {ws : List WriteEvent} {ls : List LogLine} {e : Error}
    (h : Resumes heap closed dials tl (dispatcher heap closed dials tl).events) :
    Resumes heap closed dials (m :: tl)
      (.send m ws ls (some e) :: .log (reconnectLog e) :: .close :: .close ::
        (dispatcher heap closed dials tl).events) := by
  intro pre post m' ws' ls' e' heq
  cases pre with
  | nil =>
    simp only [List.nil_append, List.cons.injEq, Event.send.injEq, Option.some.injEq] at heq
    obtain ⟨⟨hm, _, _, he⟩, hpost⟩ := heq
    subst hm he
    exact ⟨tl, rfl, hpost.symm⟩
  | cons y pre' =>
    simp only [List.cons_append, List.cons.injEq] at heq
    obtain ⟨hy, heq⟩ := heq
    subst hy
    have h3 : Resumes heap closed dials tl
        (.log (reconnectLog e) :: .close :: .close :: (dispatcher heap closed dials tl).events) :=
      resumes_log _ (resumes_close (resumes_close h))
    refine resumes_tail h3 ?_ ?_ pre' post m' ws' ls' e' heq
    · rfl
    · intro _; rfl

theorem rangeLoop_resumes (heap : Heap) (closed isSent : Bool) (dials : List DialResult)
    (h : ∀ tl, Resumes heap closed dials tl (dispatcher heap closed dials tl).events) :
    ∀ (msgs : List Message) (conn : Conn),
      Resumes heap closed dials msgs
        (rangeLoop heap closed isSent (dispatcher heap closed dials) conn msgs).events := by
  intro msgs
  induction msgs with
  | nil =>
    intro conn
    unfold rangeLoop
    split
    · exact resumes_close (h [])
    · exact resumes_nil _ _ _ _
  | cons msg tl ih =>
    intro conn
    unfold rangeLoop
    split
    · exact resumes_fail (h tl)
    · exact resumes_sent _ _ _ (ih _)

theorem dispatcher_resumes (heap : Heap) (closed : Bool) :
    ∀ (dials : List DialResult) (msgs : List Message),
      Resumes heap closed dials msgs (dispatcher heap closed dials msgs).events := by
  intro dials
  induction dials with
  | nil => intro msgs; exact resumes_nil _ _ _ _
  | cons d dials ih =>
    intro msgs
    cases d with
    | refused err =>
      exact resumes_dial _ _ (resumes_log _ (resumes_sleep (ih msgs)))
    | connected conn =>
      exact resumes_dial _ _ (rangeLoop_resumes heap closed false dials ih msgs conn)

theorem rangeLoop_handed (heap : Heap) (closed isSent : Bool) (redial : List Message → Run)
    (h : ∀ tl, handed (redial tl).events ++ (redial tl).rest = tl) :
    ∀ (msgs : List Message) (conn : Conn),
      handed (rangeLoop heap closed isSent redial conn msgs).events ++
        (rangeLoop heap closed isSent redial conn msgs).rest = msgs := by
  intro msgs
  induction msgs with
  | nil =>
    intro conn
    unfold rangeLoop
    split
    · simpa [after_events, after_rest, handed] using h []
    · rfl
  | cons msg tl ih =>
    intro conn
    unfold rangeLoop
    split
    · simpa [after_events, after_rest, handed] using h tl
    · simpa [after_events, after_rest, handed] using ih _

theorem dispatcher_handed (heap : Heap) (closed : Bool) :
    ∀ (dials : List DialResult) (msgs : List Message),
      handed (dispatcher heap closed dials msgs).events ++
        (dispatcher heap closed dials msgs).rest = msgs := by
  intro dials
  induction dials with
  | nil => intro msgs; rfl
  | cons d dials ih =>
    intro msgs
    cases d with
    | refused err => simpa [dispatcher, after_events, after_rest, handed] using ih msgs
    | connected conn =>
      simpa [dispatcher, after_events, after_rest, handed] using
        rangeLoop_handed heap closed false _ ih msgs conn

theorem standing_after {closed : Bool} {n : Nat} {run : Run} (evs : List Event)
    (hd : dialCount evs = 0) (h : Standing closed n run) : Standing closed n (run.after evs) := by
  rcases h with ⟨h1, h2⟩ | ⟨h1, h2, h3⟩
  · exact Or.inl ⟨h1, by rw [after_events, dialCount_append, hd, h2, Nat.zero_add]⟩
  · exact Or.inr ⟨h1, h2, h3⟩

theorem rangeLoop_standing (heap : Heap) (closed isSent : Bool) (redial : List Message → Run)
    (n : Nat) (h : ∀ tl, Standing closed n (redial tl)) :
    ∀ (msgs : List Message) (conn : Conn),
      Standing closed n (rangeLoop heap closed isSent redial conn msgs) := by
  intro msgs
  induction msgs with
  | nil =>
    intro conn
    unfold rangeLoop
    split
    · exact standing_after _ rfl (h [])
    · rename_i hc
      exact Or.inr ⟨rfl, by simpa using hc, rfl⟩
  | cons msg tl ih =>
    intro conn
    unfold rangeLoop
    split
    · exact standing_after _ rfl (h tl)
    · exact standing_after _ rfl (ih _)

theorem dispatcher_standing (heap : Heap) (closed : Bool) :
    ∀ (dials : List DialResult) (msgs : List Message),
      Standing closed dials.length (dispatcher heap closed dials msgs) := by
  intro dials
  induction dials with
  | nil => intro msgs; exact Or.inl ⟨rfl, rfl⟩
  | cons d dials ih =>
    intro msgs
    cases d with
    | refused err =>
      rcases ih msgs with ⟨h1, h2⟩ | ⟨h1, h2, h3⟩
      · exact Or.inl ⟨h1, by simp [dispatcher, after_events, dialCount, h2]⟩
      · exact Or.inr ⟨h1, h2, h3⟩
    | connected conn =>
      rcases rangeLoop_standing heap closed false _ dials.length ih msgs conn with
        ⟨h1, h2⟩ | ⟨h1, h2, h3⟩
      · exact Or.inl ⟨h1, by simp [dispatcher, after_events, dialCount, h2]⟩
      · exact Or.inr ⟨h1, h2, h3⟩

/-- On a connection and a queue that is not empty the dispatcher hands the
first Message of the queue to `sendFile`, with `isSent` false. -/
theorem dispatcher_connected (heap : Heap) (closed : Bool) (conn : Conn)
    (dials : List DialResult) (m : Message) (tl : List Message) :
    ∃ evs, (dispatcher heap closed (.connected conn :: dials) (m :: tl)).events =
      .dial none :: .send m (sendFile heap false conn m).1.writes
        (sendFile heap false conn m).1.logs (sendFile heap false conn m).2 :: evs := by
  unfold dispatcher rangeLoop
  cases h : sendFile heap false conn m with
  | mk o r =>
    cases r with
    | none => exact ⟨_, rfl⟩
    | some e => exact ⟨_, rfl⟩

/-- C5: a call of `sendFile` in which a write fails returns the error of
that write, which is its last write (no later write is attempted for the
Message), and a call that returns no error has no failed write. In every run
of the dispatcher, whatever the text of the error, a failed call of `sendFile`
is followed by the log line, `conn.Close()` twice, and then the run of the
dispatcher from its dialing on the dial results not yet used and the Messages
that follow the failed one in the queue: a dial that fails is followed by the
sleep and the next dial, and a dial that connects by the call of `sendFile` on
the first Message left. The Messages handed to `sendFile`, followed by those
left in the queue, are the Messages of the queue in order: none is handed
again. The run stops only in `net.Dial`, every dial result used, or in the
receive on the open and empty queue. -/
theorem C5_write_failure_reconnects (heap : Heap) (closed : Bool) (dials : List DialResult)
    (msgs : List Message) :
    (∀ (isSent : Bool) (conn : Conn) (msg : Message) (o : Out) (e : Error),
      sendFile heap isSent conn msg = (o, some e) →
      ∃ ws w, o.writes = ws ++ [w] ∧ w.err = some e ∧ ∀ x ∈ ws, x.err = none) ∧
    (∀ (isSent : Bool) (conn : Conn) (msg : Message) (o : Out),
      sendFile heap isSent conn msg = (o, none) → ∀ w ∈ o.writes, w.err = none) ∧
    (∀ (pre post : List Event) (m : Message) (ws : List WriteEvent) (ls : List LogLine)
      (e : Error),
      (dispatcher heap closed dials msgs).events = pre ++ .send m ws ls (some e) :: post →
      ∃ tl, msgs = handed pre ++ m :: tl ∧
        post = .log (reconnectLog e) :: .close :: .close ::
          (dispatcher heap closed (dials.drop (dialCount pre)) tl).events) ∧
    (∀ (err : Error) (ds : List DialResult) (ms : List Message),
      (dispatcher heap closed (.refused err :: ds) ms).events =
        .dial (some err) :: .log (.errDialing err) :: .sleep ::
          (dispatcher heap closed ds ms).events) ∧
    (∀ (conn : Conn) (ds : List DialResult) (m : Message) (tl : List Message),
      ∃ evs, (dispatcher heap closed (.connected conn :: ds) (m :: tl)).events =
        .dial none :: .send m (sendFile heap false conn m).1.writes
          (sendFile heap false conn m).1.logs (sendFile heap false conn m).2 :: evs) ∧
    handed (dispatcher heap closed dials msgs).events ++
      (dispatcher heap closed dials msgs).rest = msgs ∧
    (((dispatcher heap closed dials msgs).waiting = .dial ∧
        dialCount (dispatcher heap closed dials msgs).events = dials.length) ∨
      ((dispatcher heap closed dials msgs).waiting = .message ∧ closed = false ∧
        (dispatcher heap closed dials msgs).rest = [])) := by
  refine ⟨?_, ?_, dispatcher_resumes heap closed dials msgs, fun _ _ _ => rfl,
    fun conn ds m tl => dispatcher_connected heap closed conn ds m tl,
    dispatcher_handed heap closed dials msgs, dispatcher_standing heap closed dials msgs⟩
  · intro isSent conn msg o e h
    rcases sendFile_cases heap isSent conn msg with ⟨o', h', _⟩ | ⟨o', e', h', f⟩
    · rw [h] at h'; cases h'
    · rw [h] at h'
      cases h'
      exact f
  · intro isSent conn msg o h
    rcases sendFile_cases heap isSent conn msg with ⟨o', h', c⟩ | ⟨o', e', h', _⟩
    · rw [h] at h'
      cases h'
      exact c
    · rw [h] at h'; cases h'

theorem C5_write_failure_reconnects_witness :
    ∃ tl, [(⟨none, [], [], []⟩ : Message), ⟨none, [], ascii "s", ascii "s"⟩] =
        handed [.dial none] ++ ⟨none, [], [], []⟩ :: tl ∧
      (dispatcher (fun _ => []) false
        [.connected [.fail 0 (ascii "broken pipe")], .connected []]
        [⟨none, [], [], []⟩, ⟨none, [], ascii "s", ascii "s"⟩]).events.drop 2 =
      .log (reconnectLog (ascii "broken pipe")) :: .close :: .close ::
        (dispatcher (fun _ => []) false
          (([.connected [.fail 0 (ascii "broken pipe")], .connected []] :
            List DialResult).drop (dialCount [.dial none])) tl).events :=
  (C5_write_failure_reconnects (fun _ => []) false
    [.connected [.fail 0 (ascii "broken pipe")], .connected []]
    [⟨none, [], [], []⟩, ⟨none, [], ascii "s", ascii "s"⟩]).2.2.1
    [.dial none] _ ⟨none, [], [], []⟩ [⟨[], 0, some (ascii "broken pipe")⟩]
    [.session [], .brokenPipeAttempt] (ascii "broken pipe") (by decide)

/-- C10 (as stated, refuted): `net.Listen` fails, as when the port is in
use. `server.Start()` returns the error, `main` returns and the process ends:
the dispatcher loop has ended after its first dial, and the queue has not been
closed. -/
theorem C10_counterexample :
    (main (fun _ => []) (some (ascii "listen tcp :8087: bind: address already in use")) false 1
      [.connected []] []).ended = true ∧
    (main (fun _ => []) (some (ascii "listen tcp :8087: bind: address already in use")) false 1
      [.connected []] []).queueClosed = false ∧
    (main (fun _ => []) (some (ascii "listen tcp :8087: bind: address already in use")) false 1
      [.connected []] []).events = [.dial none] := by
  decide

/-- C10 (amended): the dispatcher loop has no exit of its own and ends only
with the process, when `main` returns from `server.Start()`. That happens when
`net.Listen` fails, the queue still open, or after a value has come on
`quitch` and the queue has been closed, at whatever point the dispatcher has
reached then. While `server.Start()` has not returned the loop does not end:
it stands in `net.Dial`, every dial result used, or in the receive on the
empty queue. The loop itself, with the queue open or closed, stops nowhere
else. -/
theorem C10_dispatcher_ends_with_process (heap : Heap) (listen : Option Error) (quit : Bool)
    (steps : Nat) (dials : List DialResult) (msgs : List Message) :
    ((main heap listen quit steps dials msgs).ended = true ↔ (listen ≠ none ∨ quit = true)) ∧
    ((main heap listen quit steps dials msgs).queueClosed = true ↔
      (listen = none ∧ quit = true)) ∧
    (listen ≠ none →
      (main heap listen quit steps dials msgs).ended = true ∧
      (main heap listen quit steps dials msgs).queueClosed = false ∧
      (main heap listen quit steps dials msgs).events =
        (dispatcher heap false dials msgs).events.take steps) ∧
    (listen = none → quit = true →
      (main heap listen quit steps dials msgs).events =
        (dispatcher heap true dials msgs).events.take steps) ∧
    (listen = none → quit = false →
      (main heap listen quit steps dials msgs).ended = false ∧
      (main heap listen quit steps dials msgs).events =
        (dispatcher heap false dials msgs).events ∧
      (((dispatcher heap false dials msgs).waiting = .dial ∧
          dialCount (dispatcher heap false dials msgs).events = dials.length) ∨
        ((dispatcher heap false dials msgs).waiting = .message ∧
          (dispatcher heap false dials msgs).rest = []))) ∧
    (∀ closed : Bool,
      ((dispatcher heap closed dials msgs).waiting = .dial ∧
        dialCount (dispatcher heap closed dials msgs).events = dials.length) ∨
      ((dispatcher heap closed dials msgs).waiting = .message ∧ closed = false ∧
        (dispatcher heap closed dials msgs).rest = [])) := by
  refine ⟨?_, ?_, ?_, ?_, ?_, fun closed => dispatcher_standing heap closed dials msgs⟩
  · cases listen with
    | some err => simp [main, Start]
    | none => cases quit <;> simp [main, Start]
  · cases listen with
    | some err => simp [main, Start]
    | none => cases quit <;> simp [main, Start]
  · intro hl
    cases listen with
    | some err => exact ⟨rfl, rfl, rfl⟩
    | none => exact absurd rfl hl
  · intro hl hq
    subst hl hq
    rfl
  · intro hl hq
    subst hl hq
    refine ⟨rfl, rfl, ?_⟩
    rcases dispatcher_standing heap false dials msgs with h | ⟨h1, _, h3⟩
    · exact Or.inl h
    · exact Or.inr ⟨h1, h3⟩

theorem C10_dispatcher_ends_with_process_witness :
    (main (fun _ => []) none false 0 [.connected [], .refused (ascii "x")]
        [⟨none, [], [], []⟩]).ended = false ∧
      (main (fun _ => []) none false 0 [.connected [], .refused (ascii "x")]
        [⟨none, [], [], []⟩]).events =
        (dispatcher (fun _ => []) false [.connected [], .refused (ascii "x")]
          [⟨none, [], [], []⟩]).events ∧
      (((dispatcher (fun _ => []) false [.connected [], .refused (ascii "x")]
          [⟨none, [], [], []⟩]).waiting = .dial ∧
          dialCount (dispatcher (fun _ => []) false [.connected [], .refused (ascii "x")]
            [⟨none, [], [], []⟩]).events =
            ([.connected [], .refused (ascii "x")] : List DialResult).length) ∨
        ((dispatcher (fun _ => []) false [.connected [], .refused (ascii "x")]
          [⟨none, [], [], []⟩]).waiting = .message ∧
          (dispatcher (fun _ => []) false [.connected [], .refused (ascii "x")]
            [⟨none, [], [], []⟩]).rest = [])) :=
  (C10_dispatcher_ends_with_process (fun _ => []) none false 0
    [.connected [], .refused (ascii "x")] [⟨none, [], [], []⟩]).2.2.2.2.1 rfl rfl

/-- C1 (the code at the failing input): the handler reads `"session:abc-123"`
and then `"hello"`, and the dispatcher relays the two Messages on one
connection on which every write succeeds. The priming pair is written
before each of the two Messages: twice in the lifetime of the connection. -/
theorem C1_priming_written_twice :
    upstreamBytes (dispatcher
      (handleClient (fun _ => []) 0
        [.data (ascii "session:abc-123"), .data (ascii "hello")]).heap false [.connected []]
      (handleClient (fun _ => []) 0
        [.data (ascii "session:abc-123"), .data (ascii "hello")]).published).events =
      ascii ("session:abc-123\nname_api:voice_to_action\n" ++
        "session:abc-123\nname_api:voice_to_action\nhello") := by
  decide

/-- C8 (the code at the failing input): the handler reads `"hello"` and then
`"world"` before the dispatcher consumes the first Message. Both Messages
hold the slice `buf[:5]` of the one read buffer, and the dispatcher writes
`"world"` for each of them. -/
theorem C8_payload_overwritten :
    (handleClient (fun _ => []) 0 [.data (ascii "hello"), .data (ascii "world")]).published =
      [⟨some ⟨0, 5⟩, [], [], []⟩, ⟨some ⟨0, 5⟩, [], [], []⟩] ∧
    upstreamBytes (dispatcher
      (handleClient (fun _ => []) 0 [.data (ascii "hello"), .data (ascii "world")]).heap false
      [.connected []]
      (handleClient (fun _ => []) 0 [.data (ascii "hello"), .data (ascii "world")]).published).events =
      ascii "worldworld" := by
  decide

end Relay
